import Mathlib

/-!
Verification development for the Smart Lead Import pipeline of the CRM
backend (services/lead_import: analyzer, normalizer, deduplicator,
session_manager, template_manager, and the lead_import API endpoints).

The Python code is shallowly embedded: each service function becomes an
executable Lean definition over explicit data (spreadsheet cells, assoc-list
dictionaries mirroring Python dicts, session records).  Python string methods
(strip, lower, title, split, replace) are modelled character-by-character at
ASCII precision, which is the precision at which the import pipeline uses
them.  External collaborators (the SQLAlchemy store, pandas parsing, difflib's
SequenceMatcher) are passed in as explicit parameters: the lead table is a
list of leads, a parsed file is a list of rows, and the sequence-similarity
ratio is a function parameter.
-/

/-! ## Character-level models of Python str methods (ASCII semantics) -/

/-- Model of str.lower for one character (ASCII range, as used by the code). -/
def pyLowerChar (c : Char) : Char :=
  if 65 ≤ c.toNat ∧ c.toNat ≤ 90 then Char.ofNat (c.toNat + 32) else c

/-- Model of str.upper for one character (ASCII range). -/
def pyUpperChar (c : Char) : Char :=
  if 97 ≤ c.toNat ∧ c.toNat ≤ 122 then Char.ofNat (c.toNat - 32) else c

/-- ASCII letter test (the cased characters relevant to this code base). -/
def isAlphaChar (c : Char) : Bool :=
  (65 ≤ c.toNat && c.toNat ≤ 90) || (97 ≤ c.toNat && c.toNat ≤ 122)

/-- ASCII digit test, the model of the regex class backslash-d. -/
def isDigitChar (c : Char) : Bool := 48 ≤ c.toNat && c.toNat ≤ 57

/-- Whitespace test modelling Python str.strip / str.split and the regex
class backslash-s at ASCII precision. -/
def isSpaceChar (c : Char) : Bool :=
  c.toNat = 32 || c.toNat = 9 || c.toNat = 10 || c.toNat = 13 ||
    c.toNat = 11 || c.toNat = 12

/-- Model of str.lower on a whole string. -/
def pyLower (s : String) : String := ⟨s.data.map pyLowerChar⟩

/-- Strip helper on character lists: drop whitespace from both ends. -/
def pyStripL (cs : List Char) : List Char :=
  ((cs.dropWhile isSpaceChar).reverse.dropWhile isSpaceChar).reverse

/-- Model of str.strip with no argument. -/
def pyStrip (s : String) : String := ⟨pyStripL s.data⟩

theorem length_dropWhile_le {α : Type} (p : α → Bool) (l : List α) :
    (l.dropWhile p).length ≤ l.length := by
  induction l with
  | nil => simp [List.dropWhile]
  | cons a as ih =>
    rw [List.dropWhile]
    split
    · exact Nat.le_trans ih (by simp)
    · simp

/-- Model of str.split with no argument: maximal runs of non-whitespace. -/
def pyWords : List Char → List (List Char)
  | [] => []
  | c :: rest =>
    if isSpaceChar c then pyWords rest
    else (c :: rest.takeWhile (fun d => !isSpaceChar d)) ::
      pyWords (rest.dropWhile (fun d => !isSpaceChar d))
termination_by cs => cs.length
decreasing_by
  · simp only [List.length_cons]; omega
  · simp only [List.length_cons]
    have := length_dropWhile_le (fun d => !isSpaceChar d) rest
    omega

/-- Accumulator worker for a structurally recursive computation of the
word split (the accumulator holds the current word reversed). -/
def pyWordsAuxC : List Char → List Char → List (List Char)
  | acc, [] => if acc.isEmpty then [] else [acc.reverse]
  | acc, c :: rest =>
    if isSpaceChar c then
      if acc.isEmpty then pyWordsAuxC [] rest
      else acc.reverse :: pyWordsAuxC [] rest
    else pyWordsAuxC (c :: acc) rest

/-- Structurally recursive computation of pyWords, used inside executable
definitions so that concrete runs reduce in the kernel. -/
def pyWordsC (cs : List Char) : List (List Char) := pyWordsAuxC [] cs

theorem pyWordsAuxC_acc (rest : List Char) : ∀ acc : List Char, acc ≠ [] →
    pyWordsAuxC acc rest =
      (acc.reverse ++ rest.takeWhile (fun d => !isSpaceChar d)) ::
        pyWordsC (rest.dropWhile (fun d => !isSpaceChar d)) := by
  induction rest with
  | nil =>
    intro acc hacc
    have : acc.isEmpty = false := by
      rcases acc with _ | ⟨a, as⟩
      · exact absurd rfl hacc
      · rfl
    simp [pyWordsAuxC, this, List.takeWhile, List.dropWhile, pyWordsC]
  | cons d r ih =>
    intro acc hacc
    have hne : acc.isEmpty = false := by
      rcases acc with _ | ⟨a, as⟩
      · exact absurd rfl hacc
      · rfl
    by_cases hd : isSpaceChar d = true
    · rw [pyWordsAuxC, if_pos hd, if_neg (by simp [hne])]
      rw [List.takeWhile, List.dropWhile]
      rw [show (!isSpaceChar d) = false by simp [hd]]
      show _ = (acc.reverse ++ []) :: pyWordsC (d :: r)
      rw [List.append_nil]
      have : pyWordsC (d :: r) = pyWordsAuxC [] r := by
        show pyWordsAuxC [] (d :: r) = _
        rw [pyWordsAuxC, if_pos hd]
        rfl
      rw [this]
    · rw [pyWordsAuxC, if_neg hd]
      rw [ih (d :: acc) (by simp)]
      rw [List.takeWhile, List.dropWhile]
      rw [show (!isSpaceChar d) = true by simp [hd]]
      simp [List.append_assoc]

theorem pyWordsC_eq (cs : List Char) : pyWordsC cs = pyWords cs := by
  induction cs using pyWords.induct with
  | case1 => rw [pyWords]; rfl
  | case2 c rest hsp ih =>
    rw [pyWords, if_pos hsp, ← ih]
    show pyWordsAuxC [] (c :: rest) = _
    rw [pyWordsAuxC, if_pos hsp]
    rfl
  | case3 c rest hsp ih =>
    rw [pyWords, if_neg hsp]
    show pyWordsAuxC [] (c :: rest) = _
    rw [pyWordsAuxC, if_neg hsp, pyWordsAuxC_acc rest [c] (by simp), ih]
    rfl

/-- Join a list of words with a separator, modelling str.join. -/
def joinSep (sep : List Char) : List (List Char) → List Char
  | [] => []
  | [w] => w
  | w :: ws => w ++ sep ++ joinSep sep ws

/-- Model of the whitespace-collapsing idiom used by the normalizer:
a space joined over s.split(). -/
def pyCollapseWs (s : String) : String := ⟨joinSep [' '] (pyWordsC s.data)⟩

/-- State-passing worker for str.title: the flag records whether the previous
character was cased (a letter). -/
def pyTitleAux : Bool → List Char → List Char
  | _, [] => []
  | prev, c :: rest =>
    if isAlphaChar c then
      (if prev then pyLowerChar c else pyUpperChar c) :: pyTitleAux true rest
    else c :: pyTitleAux false rest

/-- Model of str.title. -/
def pyTitle (s : String) : String := ⟨pyTitleAux false s.data⟩

/-- Model of the single pass str.replace makes over its receiver, for the
two-character pattern dot-dot replaced by a single dot (non-overlapping,
left to right, exactly as one call of str.replace performs it). -/
def pyDedot : List Char → List Char
  | '.' :: '.' :: rest => '.' :: pyDedot rest
  | c :: rest => c :: pyDedot rest
  | [] => []

/-- String wrapper for the single-pass dot-dot collapsing. -/
def pyDedotStr (s : String) : String := ⟨pyDedot s.data⟩

/-- Model of s.replace of a single space by the empty string: every space
character (exactly U+0020, as in the source) is removed. -/
def pyRemoveSpaces (s : String) : String := ⟨s.data.filter (fun c => c != ' ')⟩

/-- Model of str.join over a list of strings. -/
def strJoin (sep : String) : List String → String
  | [] => ""
  | [v] => v
  | v :: vs => v ++ sep ++ strJoin sep vs

/-! ## Basic character lemmas -/

theorem char_toNat_ofNat_of_lt {n : Nat} (h : n < 55296) :
    (Char.ofNat n).toNat = n := by
  have hv : n.isValidChar := Or.inl h
  unfold Char.ofNat
  rw [dif_pos hv]
  unfold Char.ofNatAux Char.toNat
  rfl

theorem pyLowerChar_toNat (c : Char) :
    (pyLowerChar c).toNat = if 65 ≤ c.toNat ∧ c.toNat ≤ 90 then c.toNat + 32 else c.toNat := by
  unfold pyLowerChar
  split
  · next h => exact char_toNat_ofNat_of_lt (by omega)
  · rfl

theorem pyUpperChar_toNat (c : Char) :
    (pyUpperChar c).toNat = if 97 ≤ c.toNat ∧ c.toNat ≤ 122 then c.toNat - 32 else c.toNat := by
  unfold pyUpperChar
  split
  · next h => exact char_toNat_ofNat_of_lt (by omega)
  · rfl

theorem pyLowerChar_pyLowerChar (c : Char) :
    pyLowerChar (pyLowerChar c) = pyLowerChar c := by
  unfold pyLowerChar
  split
  · next h =>
    rw [if_neg]
    rw [char_toNat_ofNat_of_lt (by omega)]
    omega
  · rfl

theorem pyUpperChar_pyUpperChar (c : Char) :
    pyUpperChar (pyUpperChar c) = pyUpperChar c := by
  unfold pyUpperChar
  split
  · next h =>
    rw [if_neg]
    rw [char_toNat_ofNat_of_lt (by omega)]
    omega
  · rfl

theorem isAlphaChar_pyLowerChar (c : Char) :
    isAlphaChar (pyLowerChar c) = isAlphaChar c := by
  unfold isAlphaChar
  rw [pyLowerChar_toNat, Bool.eq_iff_iff]
  simp only [Bool.or_eq_true, Bool.and_eq_true, decide_eq_true_eq]
  split <;> omega

theorem isAlphaChar_pyUpperChar (c : Char) :
    isAlphaChar (pyUpperChar c) = isAlphaChar c := by
  unfold isAlphaChar
  rw [pyUpperChar_toNat, Bool.eq_iff_iff]
  simp only [Bool.or_eq_true, Bool.and_eq_true, decide_eq_true_eq]
  split <;> omega

theorem isSpaceChar_pyLowerChar (c : Char) :
    isSpaceChar (pyLowerChar c) = isSpaceChar c := by
  unfold isSpaceChar
  rw [pyLowerChar_toNat, Bool.eq_iff_iff]
  simp only [Bool.or_eq_true, decide_eq_true_eq]
  split <;> omega

theorem isSpaceChar_pyUpperChar (c : Char) :
    isSpaceChar (pyUpperChar c) = isSpaceChar c := by
  unfold isSpaceChar
  rw [pyUpperChar_toNat, Bool.eq_iff_iff]
  simp only [Bool.or_eq_true, decide_eq_true_eq]
  split <;> omega

theorem pyTitleAux_pyTitleAux (cs : List Char) (b : Bool) :
    pyTitleAux b (pyTitleAux b cs) = pyTitleAux b cs := by
  induction cs generalizing b with
  | nil => rfl
  | cons c rest ih =>
    by_cases h : isAlphaChar c = true
    · cases b with
      | false =>
        simp only [pyTitleAux, h, if_true, Bool.false_eq_true, if_false,
          isAlphaChar_pyUpperChar, pyUpperChar_pyUpperChar, ih]
      | true =>
        simp only [pyTitleAux, h, if_true, isAlphaChar_pyLowerChar,
          pyLowerChar_pyLowerChar, ih]
    · have h' : isAlphaChar c = false := by simpa using h
      simp only [pyTitleAux, h', Bool.false_eq_true, if_false, ih]

theorem pyTitleAux_length (b : Bool) (cs : List Char) :
    (pyTitleAux b cs).length = cs.length := by
  induction cs generalizing b with
  | nil => rfl
  | cons c rest ih =>
    by_cases h : isAlphaChar c = true <;>
      simp [pyTitleAux, h, ih]

theorem pyTitleAux_map_isSpace (b : Bool) (cs : List Char) :
    (pyTitleAux b cs).map isSpaceChar = cs.map isSpaceChar := by
  induction cs generalizing b with
  | nil => rfl
  | cons c rest ih =>
    by_cases h : isAlphaChar c = true
    · cases b with
      | false =>
        simp [pyTitleAux, h, ih, isSpaceChar_pyUpperChar]
      | true =>
        simp [pyTitleAux, h, ih, isSpaceChar_pyLowerChar]
    · have h' : isAlphaChar c = false := by simpa using h
      simp [pyTitleAux, h', ih]

/-- Flag state of the title worker after consuming a list of characters. -/
def lastFlag (b : Bool) : List Char → Bool
  | [] => b
  | c :: rest => lastFlag (isAlphaChar c) rest

theorem pyTitleAux_append (xs : List Char) (b : Bool) (ys : List Char) :
    pyTitleAux b (xs ++ ys) = pyTitleAux b xs ++ pyTitleAux (lastFlag b xs) ys := by
  induction xs generalizing b with
  | nil => rfl
  | cons c rest ih =>
    by_cases h : isAlphaChar c = true
    · simp only [List.cons_append, pyTitleAux, lastFlag, h, if_true, List.append_eq]
      rw [ih]
    · have h' : isAlphaChar c = false := by simpa using h
      simp only [List.cons_append, pyTitleAux, lastFlag, h', Bool.false_eq_true, if_false,
        List.append_eq]
      rw [ih]

theorem dropWhile_head_false {α : Type} {p : α → Bool} {l : List α} {c : α}
    {rest : List α} (h : l.dropWhile p = c :: rest) : p c = false := by
  induction l with
  | nil => simp [List.dropWhile] at h
  | cons a as ih =>
    cases hp : p a with
    | true =>
      have hd : List.dropWhile p (a :: as) = List.dropWhile p as := by
        rw [List.dropWhile, hp]
      rw [hd] at h; exact ih h
    | false =>
      have hd : List.dropWhile p (a :: as) = a :: as := by
        rw [List.dropWhile, hp]
      rw [hd] at h
      cases h
      exact hp

theorem dropWhile_of_all_false {α : Type} {p : α → Bool} {l : List α}
    (h : ∀ a ∈ l, p a = false) : l.dropWhile p = l := by
  induction l with
  | nil => rfl
  | cons a as _ =>
    rw [List.dropWhile, h a (by simp)]

theorem dropWhile_of_head_false {α : Type} {p : α → Bool} {c : α} {l : List α}
    (h : p c = false) : (c :: l).dropWhile p = c :: l := by
  rw [List.dropWhile, h]

theorem getLast?_dropWhile {α : Type} {p : α → Bool} {l : List α}
    (h : l.dropWhile p ≠ []) : (l.dropWhile p).getLast? = l.getLast? := by
  induction l with
  | nil => simp [List.dropWhile] at h
  | cons a as ih =>
    cases hp : p a with
    | true =>
      have hd : List.dropWhile p (a :: as) = List.dropWhile p as := by
        rw [List.dropWhile, hp]
      rw [hd] at h ⊢
      rw [ih h]
      rcases as with _ | ⟨b, bs⟩
      · simp [List.dropWhile] at h
      · simp
    | false =>
      have hd : List.dropWhile p (a :: as) = a :: as := by
        rw [List.dropWhile, hp]
      rw [hd]

theorem takeWhile_of_all {α : Type} {p : α → Bool} {l : List α}
    (h : ∀ a ∈ l, p a = true) : l.takeWhile p = l := by
  induction l with
  | nil => rfl
  | cons a as ih =>
    rw [List.takeWhile, h a (by simp)]
    simp only [List.cons.injEq, true_and]
    exact ih (fun b hb => h b (by simp [hb]))

theorem dropWhile_of_all {α : Type} {p : α → Bool} {l : List α}
    (h : ∀ a ∈ l, p a = true) : l.dropWhile p = [] := by
  induction l with
  | nil => rfl
  | cons a as ih =>
    rw [List.dropWhile, h a (by simp)]
    exact ih (fun b hb => h b (by simp [hb]))

theorem mem_takeWhile_sat {α : Type} {p : α → Bool} {l : List α} {a : α}
    (h : a ∈ l.takeWhile p) : p a = true := by
  induction l with
  | nil => simp [List.takeWhile] at h
  | cons b bs ih =>
    rw [List.takeWhile] at h
    cases hp : p b with
    | true =>
      rw [hp] at h
      rcases h with _ | h
      · exact hp
      · next h => exact ih h
    | false =>
      rw [hp] at h
      simp at h

theorem mem_takeWhile_mem {α : Type} {p : α → Bool} {l : List α} {a : α}
    (h : a ∈ l.takeWhile p) : a ∈ l := by
  induction l with
  | nil => simp [List.takeWhile] at h
  | cons b bs ih =>
    rw [List.takeWhile] at h
    cases hp : p b with
    | true =>
      rw [hp] at h
      rcases h with _ | h
      · simp
      · next h => simp [ih h]
    | false =>
      rw [hp] at h
      simp at h

theorem takeWhile_append_stop {α : Type} {p : α → Bool} {xs : List α}
    (h : ∀ a ∈ xs, p a = true) {y : α} (hy : p y = false) (ys : List α) :
    (xs ++ y :: ys).takeWhile p = xs ∧ (xs ++ y :: ys).dropWhile p = y :: ys := by
  induction xs with
  | nil =>
    constructor
    · rw [List.nil_append, List.takeWhile, hy]
    · rw [List.nil_append, List.dropWhile, hy]
  | cons a as ih =>
    have ha : p a = true := h a (by simp)
    obtain ⟨ih1, ih2⟩ := ih (fun b hb => h b (by simp [hb]))
    constructor
    · rw [List.cons_append, List.takeWhile, ha, ih1]
    · rw [List.cons_append, List.dropWhile, ha, ih2]

theorem pyWords_sound (cs : List Char) :
    ∀ w ∈ pyWords cs, w ≠ [] ∧ ∀ c ∈ w, isSpaceChar c = false := by
  induction cs using pyWords.induct with
  | case1 => intro w hw; simp [pyWords] at hw
  | case2 c rest hsp ih =>
    intro w hw
    rw [pyWords, if_pos hsp] at hw
    exact ih w hw
  | case3 c rest hsp ih =>
    intro w hw
    rw [pyWords, if_neg hsp] at hw
    rcases hw with _ | hw
    · constructor
      · simp
      · intro d hd
        rcases List.mem_cons.mp hd with rfl | hd
        · simpa using hsp
        · have := mem_takeWhile_sat hd
          simpa using this
    · next hw => exact ih w hw

theorem pyWords_word (c : Char) (w : List Char) (hc : isSpaceChar c = false)
    (hw : ∀ d ∈ w, isSpaceChar d = false) :
    pyWords (c :: w) = [c :: w] := by
  rw [pyWords, if_neg (by simp [hc])]
  rw [takeWhile_of_all (by intro a ha; simp [hw a ha]),
    dropWhile_of_all (by intro a ha; simp [hw a ha])]
  rw [pyWords]

theorem pyWords_joinSep (ws : List (List Char))
    (h : ∀ w ∈ ws, w ≠ [] ∧ ∀ c ∈ w, isSpaceChar c = false) :
    pyWords (joinSep [' '] ws) = ws := by
  induction ws with
  | nil =>
    show pyWords [] = []
    rw [pyWords]
  | cons w ws ih =>
    rcases ws with _ | ⟨w2, ws'⟩
    · obtain ⟨hne, hns⟩ := h w (by simp)
      rcases w with _ | ⟨c, wrest⟩
      · exact absurd rfl hne
      · show pyWords (c :: wrest) = [c :: wrest]
        exact pyWords_word c wrest (hns c (by simp)) (fun d hd => hns d (by simp [hd]))
    · obtain ⟨hne, hns⟩ := h w (by simp)
      have hjoin : joinSep [' '] (w :: w2 :: ws') = w ++ ' ' :: joinSep [' '] (w2 :: ws') := by
        show w ++ [' '] ++ _ = _
        rw [List.append_assoc]
        rfl
      rw [hjoin]
      rcases w with _ | ⟨c, wrest⟩
      · exact absurd rfl hne
      · rw [List.cons_append, pyWords,
          if_neg (by simp [hns c (by simp)])]
        have hstop := @takeWhile_append_stop _ (fun d => !isSpaceChar d) wrest
          (by intro a ha; simp [hns a (by simp [ha])])
          ' ' (by simp [isSpaceChar]) (joinSep [' '] (w2 :: ws'))
        rw [hstop.1, hstop.2]
        rw [pyWords, if_pos (by simp [isSpaceChar])]
        rw [ih (fun v hv => h v (by simp [hv]))]

theorem pyWords_nil_iff (cs : List Char) :
    pyWords cs = [] ↔ ∀ c ∈ cs, isSpaceChar c = true := by
  induction cs using pyWords.induct with
  | case1 => simp [pyWords]
  | case2 c rest hsp ih =>
    rw [pyWords, if_pos hsp]
    rw [ih]
    constructor
    · intro h d hd
      rcases List.mem_cons.mp hd with rfl | hd
      · exact hsp
      · exact h d hd
    · intro h d hd
      exact h d (by simp [hd])
  | case3 c rest hsp ih =>
    rw [pyWords, if_neg hsp]
    constructor
    · intro h; exact absurd h (by simp)
    · intro h
      have := h c (by simp)
      exact absurd this (by simpa using hsp)

theorem joinSep_ne_nil (w : List Char) (ws : List (List Char)) (hw : w ≠ []) :
    joinSep [' '] (w :: ws) ≠ [] := by
  rcases ws with _ | ⟨w2, ws'⟩
  · exact hw
  · show w ++ [' '] ++ _ ≠ []
    simp [hw]

theorem joinSep_head_not_space (ws : List (List Char))
    (h : ∀ w ∈ ws, w ≠ [] ∧ ∀ c ∈ w, isSpaceChar c = false) {c : Char}
    (hc : (joinSep [' '] ws).head? = some c) : isSpaceChar c = false := by
  induction ws with
  | nil => simp [joinSep] at hc
  | cons w ws ih =>
    obtain ⟨hne, hns⟩ := h w (by simp)
    rcases ws with _ | ⟨w2, ws'⟩
    · have : c ∈ w := List.mem_of_mem_head? hc
      exact hns c this
    · rcases w with _ | ⟨a, arest⟩
      · exact absurd rfl hne
      · have hh : (joinSep [' '] ((a :: arest) :: w2 :: ws')).head? = some a := by
          show ((a :: arest) ++ [' '] ++ joinSep [' '] (w2 :: ws')).head? = some a
          simp
        rw [hh] at hc
        cases hc
        exact hns c (by simp)

theorem joinSep_getLast_not_space (ws : List (List Char))
    (h : ∀ w ∈ ws, w ≠ [] ∧ ∀ c ∈ w, isSpaceChar c = false) {c : Char}
    (hc : (joinSep [' '] ws).getLast? = some c) : isSpaceChar c = false := by
  induction ws with
  | nil => simp [joinSep] at hc
  | cons w ws ih =>
    rcases ws with _ | ⟨w2, ws'⟩
    · obtain ⟨hne, hns⟩ := h w (by simp)
      have : c ∈ w := List.mem_of_mem_getLast? hc
      exact hns c this
    · have hjoin : joinSep [' '] (w :: w2 :: ws') = w ++ ' ' :: joinSep [' '] (w2 :: ws') := by
        show w ++ [' '] ++ _ = _
        rw [List.append_assoc]
        rfl
      rw [hjoin] at hc
      have hne2 : joinSep [' '] (w2 :: ws') ≠ [] :=
        joinSep_ne_nil w2 ws' (h w2 (by simp)).1
      rw [List.getLast?_append_cons] at hc
      rcases hj : joinSep [' '] (w2 :: ws') with _ | ⟨b, bs⟩
      · exact absurd hj hne2
      · rw [hj, List.getLast?_cons_cons] at hc
        apply ih (fun v hv => h v (by simp [hv]))
        rw [hj]
        exact hc

theorem pyStripL_head_not_space {cs : List Char} {c : Char}
    (h : (pyStripL cs).head? = some c) : isSpaceChar c = false := by
  unfold pyStripL at h
  rw [List.head?_reverse] at h
  rcases hd : (cs.dropWhile isSpaceChar).reverse.dropWhile isSpaceChar with _ | ⟨b, bs⟩
  · rw [hd] at h; simp at h
  · rw [getLast?_dropWhile (by rw [hd]; simp)] at h
    rw [List.getLast?_reverse] at h
    rcases hb : cs.dropWhile isSpaceChar with _ | ⟨d, ds⟩
    · rw [hb] at h; simp at h
    · rw [hb] at h
      simp only [List.head?_cons, Option.some.injEq] at h
      subst h
      exact dropWhile_head_false hb

theorem pyStripL_getLast_not_space {cs : List Char} {c : Char}
    (h : (pyStripL cs).getLast? = some c) : isSpaceChar c = false := by
  unfold pyStripL at h
  rw [List.getLast?_reverse] at h
  rcases hd : (cs.dropWhile isSpaceChar).reverse.dropWhile isSpaceChar with _ | ⟨b, bs⟩
  · rw [hd] at h; simp at h
  · rw [hd] at h
    simp only [List.head?_cons, Option.some.injEq] at h
    subst h
    exact dropWhile_head_false hd

theorem pyStripL_of_edges {cs : List Char}
    (hhead : ∀ c, cs.head? = some c → isSpaceChar c = false)
    (hlast : ∀ c, cs.getLast? = some c → isSpaceChar c = false) :
    pyStripL cs = cs := by
  rcases cs with _ | ⟨a, as⟩
  · rfl
  · unfold pyStripL
    rw [dropWhile_of_head_false (hhead a (by simp))]
    rcases hr : (a :: as).reverse with _ | ⟨b, bs⟩
    · simp at hr
    · have hb : isSpaceChar b = false := by
        apply hlast
        rw [← List.head?_reverse, hr]
        simp
      rw [dropWhile_of_head_false hb]
      rw [← hr]
      exact List.reverse_reverse _

theorem pyStripL_pyStripL (cs : List Char) : pyStripL (pyStripL cs) = pyStripL cs :=
  pyStripL_of_edges (fun _ h => pyStripL_head_not_space h)
    (fun _ h => pyStripL_getLast_not_space h)

/-- Canonical whitespace form: the string is exactly the space-joined list of
its own whitespace-split words. -/
def Collapsed (cs : List Char) : Prop := joinSep [' '] (pyWords cs) = cs

theorem collapsed_pyCollapseWs (s : String) : Collapsed (pyCollapseWs s).data := by
  unfold Collapsed
  have hd : (pyCollapseWs s).data = joinSep [' '] (pyWordsC s.data) := rfl
  rw [hd, pyWordsC_eq, pyWords_joinSep _ (pyWords_sound s.data)]

theorem Collapsed.collapse_fix {cs : List Char} (h : Collapsed cs) :
    pyCollapseWs ⟨cs⟩ = ⟨cs⟩ := by
  unfold pyCollapseWs
  rw [show (String.mk cs).data = cs from rfl, pyWordsC_eq]
  exact congrArg String.mk h

theorem Collapsed.strip_fix {cs : List Char} (h : Collapsed cs) :
    pyStripL cs = cs := by
  apply pyStripL_of_edges
  · intro c hc
    rw [← h] at hc
    exact joinSep_head_not_space _ (pyWords_sound cs) hc
  · intro c hc
    rw [← h] at hc
    exact joinSep_getLast_not_space _ (pyWords_sound cs) hc

theorem pyTitleAux_joinSep (ws : List (List Char))
    (h : ∀ w ∈ ws, w ≠ [] ∧ ∀ c ∈ w, isSpaceChar c = false) :
    pyTitleAux false (joinSep [' '] ws) = joinSep [' '] (ws.map (pyTitleAux false)) := by
  induction ws with
  | nil => rfl
  | cons w ws ih =>
    rcases ws with _ | ⟨w2, ws'⟩
    · rfl
    · have hjoin : joinSep [' '] (w :: w2 :: ws') = w ++ ' ' :: joinSep [' '] (w2 :: ws') := by
        show w ++ [' '] ++ _ = _
        rw [List.append_assoc]
        rfl
      have hjoin2 : joinSep [' '] ((w :: w2 :: ws').map (pyTitleAux false)) =
          pyTitleAux false w ++ ' ' :: joinSep [' '] ((w2 :: ws').map (pyTitleAux false)) := by
        show pyTitleAux false w ++ [' '] ++ _ = _
        rw [List.append_assoc]
        rfl
      rw [hjoin, hjoin2, pyTitleAux_append]
      congr 1
      have hsp : isAlphaChar ' ' = false := by decide
      rw [pyTitleAux, if_neg (by simp [hsp])]
      rw [ih (fun v hv => h v (by simp [hv]))]

theorem pyTitleAux_word_props {w : List Char} (hne : w ≠ [])
    (hns : ∀ c ∈ w, isSpaceChar c = false) :
    pyTitleAux false w ≠ [] ∧ ∀ c ∈ pyTitleAux false w, isSpaceChar c = false := by
  constructor
  · intro hcontra
    have := pyTitleAux_length false w
    rw [hcontra] at this
    exact hne (List.eq_nil_of_length_eq_zero this.symm)
  · intro c hc
    have hmap := pyTitleAux_map_isSpace false w
    have : isSpaceChar c ∈ (pyTitleAux false w).map isSpaceChar := List.mem_map_of_mem _ hc
    rw [hmap] at this
    obtain ⟨d, hd, hdc⟩ := List.mem_map.mp this
    rw [← hdc]
    exact hns d hd

theorem Collapsed.title {cs : List Char} (h : Collapsed cs) :
    Collapsed (pyTitleAux false cs) := by
  unfold Collapsed
  have hws := pyWords_sound cs
  rw [← h, pyTitleAux_joinSep _ hws]
  rw [pyWords_joinSep]
  intro w hw
  obtain ⟨v, hv, hvw⟩ := List.mem_map.mp hw
  rw [← hvw]
  exact pyTitleAux_word_props (hws v hv).1 (hws v hv).2

/-! ## Regex models

The analyzer and normalizer use one email pattern (two identical copies in
the source) and one loose phone pattern.  Both are anchored full-string
regexes over ASCII classes, modelled as executable predicates. -/

/-- Split a character list at the first occurrence of a separator. -/
def breakAt (sep : Char) : List Char → Option (List Char × List Char)
  | [] => none
  | c :: rest =>
    if c = sep then some ([], rest)
    else (breakAt sep rest).map (fun p => (c :: p.1, p.2))

theorem breakAt_eq_some {sep : Char} {cs a b : List Char}
    (h : breakAt sep cs = some (a, b)) :
    cs = a ++ sep :: b ∧ ∀ c ∈ a, c ≠ sep := by
  induction cs generalizing a with
  | nil => simp [breakAt] at h
  | cons c rest ih =>
    rw [breakAt] at h
    by_cases hc : c = sep
    · rw [if_pos hc] at h
      simp only [Option.some.injEq, Prod.mk.injEq] at h
      obtain ⟨ha, hb⟩ := h
      subst ha; subst hb; subst hc
      exact ⟨rfl, by simp⟩
    · rw [if_neg hc] at h
      rcases hba : breakAt sep rest with _ | ⟨a', b'⟩
      · rw [hba] at h; simp at h
      · rw [hba] at h
        simp only [Option.map_some', Option.some.injEq, Prod.mk.injEq] at h
        obtain ⟨ha, hb⟩ := h
        obtain ⟨h1, h2⟩ := ih (a := a') (by rw [hba, hb])
        subst ha
        constructor
        · rw [List.cons_append, h1]
        · intro d hd
          rcases List.mem_cons.mp hd with rfl | hd
          · exact hc
          · exact h2 d hd

/-- Characters the email regex accepts in the local part. -/
def isEmailLocalChar (c : Char) : Bool :=
  isAlphaChar c || isDigitChar c || c == '.' || c == '_' || c == '%' ||
    c == '+' || c == '-'

/-- Characters the email regex accepts in the domain part before the final
dot. -/
def isEmailDomainChar (c : Char) : Bool :=
  isAlphaChar c || isDigitChar c || c == '.' || c == '-'

/-- Model of the anchored email regex shared by the analyzer
(EMAIL_PATTERN) and the normalizer (NormalizerService.EMAIL_PATTERN):
a nonempty local part, an at-sign, a nonempty domain ending in a dot
followed by at least two letters.  The last dot of the domain is located by
scanning the reversed domain. -/
def emailMatches (s : String) : Bool :=
  match breakAt '@' s.data with
  | some (loc, dom) =>
    !loc.isEmpty && loc.all isEmailLocalChar &&
    (match breakAt '.' dom.reverse with
     | some (tldRev, preRev) =>
       !preRev.isEmpty && dom.all isEmailDomainChar &&
         2 ≤ tldRev.length && tldRev.all isAlphaChar
     | none => false)
  | none => false

/-- Characters accepted by the loose phone regex after the optional leading
plus sign. -/
def isPhoneBodyChar (c : Char) : Bool :=
  isDigitChar c || isSpaceChar c || c == '-' || c == '(' || c == ')'

/-- Model of the anchored loose phone regex PHONE_PATTERN: an optional
leading plus sign, then 7 to 20 characters that are digits, whitespace,
hyphens or parentheses. -/
def phoneMatches (s : String) : Bool :=
  let body := match s.data with
    | '+' :: rest => rest
    | cs => cs
  body.all isPhoneBodyChar && 7 ≤ body.length && body.length ≤ 20

/-! ## Data model: cells, enums, dictionaries -/

/-- Lead source enumeration from app/models/lead.py, a str-mixin enum. -/
inductive LeadSource
  | website
  | referral
  | campaign
  | direct
  | other
deriving DecidableEq, Repr

/-- Stored string value of a LeadSource member. -/
def LeadSource.value : LeadSource → String
  | .website => "Website"
  | .referral => "Referral"
  | .campaign => "Campaign"
  | .direct => "Direct"
  | .other => "Other"

/-- Python member name of a LeadSource member, as used by str() on the
enum member (Python renders a str-mixin enum as ClassName.MEMBER). -/
def LeadSource.pyName : LeadSource → String
  | .website => "WEBSITE"
  | .referral => "REFERRAL"
  | .campaign => "CAMPAIGN"
  | .direct => "DIRECT"
  | .other => "OTHER"

/-- Lead status enumeration from app/models/lead.py (the import pipeline
only ever reads .value and writes NEW). -/
inductive LeadStatus
  | new
  | contacted
  | qualified
  | proposal
  | won
  | lost
deriving DecidableEq, Repr

/-- Stored string value of a LeadStatus member. -/
def LeadStatus.value : LeadStatus → String
  | .new => "New"
  | .contacted => "Contacted"
  | .qualified => "Qualified"
  | .proposal => "Proposal"
  | .won => "Won"
  | .lost => "Lost"

/-- Value universe for spreadsheet cells and normalized-row entries: pandas
NaN, Python None, strings, Python ints (pandas parses numeric columns as
integers, and the pipeline stores row numbers as ints), and LeadSource enum
members (stored by the normalizer in the source field). -/
inductive Cell
  | nan
  | pynone
  | str (s : String)
  | int (n : Int)
  | source (s : LeadSource)
deriving DecidableEq, Repr

/-- Model of pd.isna on a cell: true exactly for NaN and None. -/
def Cell.isna : Cell → Bool
  | .nan => true
  | .pynone => true
  | _ => false

/-- Model of Python str() applied to a cell value.  A str-mixin enum renders
as LeadSource.MEMBER under Python 3.11, the version this code targets. -/
def Cell.pyStr : Cell → String
  | .nan => "nan"
  | .pynone => "None"
  | .str s => s
  | .int n => toString n
  | .source s => "LeadSource." ++ s.pyName

/-- Model of Python truthiness of a cell value: NaN is truthy, None is
falsy, a string is truthy when nonempty, an int when nonzero, and an enum
member always (its string value is nonempty). -/
def Cell.truthy : Cell → Bool
  | .nan => true
  | .pynone => false
  | .str s => !s.data.isEmpty
  | .int n => n != 0
  | .source _ => true

/-- Assoc-list model of a Python dict with string keys: first occurrence of
a key is authoritative for lookups, and updates keep the original position
(Python dicts preserve insertion order and update in place). -/
abbrev Dict (β : Type) := List (String × β)

/-- Dict lookup, modelling d.get(k) with default None / d[k]. -/
def dGet {β : Type} (d : Dict β) (k : String) : Option β :=
  (d.find? (fun p => p.1 == k)).map (·.2)

/-- Dict membership, modelling the Python k in d test. -/
def dMem {β : Type} (d : Dict β) (k : String) : Bool :=
  (d.find? (fun p => p.1 == k)).isSome

/-- Dict update d[k] = v with Python semantics: replace in place when the
key exists, append otherwise. -/
def dSet {β : Type} (d : Dict β) (k : String) (v : β) : Dict β :=
  if dMem d k then d.map (fun p => if p.1 == k then (k, v) else p)
  else d ++ [(k, v)]

/-! ## NormalizerService (app/services/lead_import/normalizer.py) -/

/-- Option-to-cell conversion for storing an Optional[str] result in a
normalized row dict. -/
def optCell : Option String → Cell
  | some s => .str s
  | none => .pynone

/-- Lowercased enum values of LeadSource, mirroring
NormalizerService.VALID_SOURCES. -/
def VALID_SOURCES : List (String × LeadSource) :=
  [("website", .website), ("referral", .referral), ("campaign", .campaign),
   ("direct", .direct), ("other", .other)]

/-- Alias table mirroring NormalizerService.SOURCE_ALIASES. -/
def SOURCE_ALIASES : List (String × LeadSource) :=
  [("web", .website), ("site", .website), ("ref", .referral),
   ("reference", .referral), ("ad", .campaign), ("ads", .campaign),
   ("marketing", .campaign), ("cold", .direct), ("call", .direct)]

/-- Model of NormalizerService.normalize_name: trim, collapse internal
whitespace, title-case; absent or blank values give None. -/
def normalize_name (value : Cell) : Option String :=
  if value.isna || (pyStrip value.pyStr).data.isEmpty then none
  else some (pyTitle (pyCollapseWs (pyStrip value.pyStr)))

/-- Model of NormalizerService.merge_names: join the present, nonblank
parts of first and last name with a space, collapse and title-case. -/
def merge_names (first_name last_name : Cell) : Option String :=
  let parts :=
    (if !first_name.isna && !(pyStrip first_name.pyStr).data.isEmpty
     then [pyStrip first_name.pyStr] else []) ++
    (if !last_name.isna && !(pyStrip last_name.pyStr).data.isEmpty
     then [pyStrip last_name.pyStr] else [])
  if parts.isEmpty then none
  else some (pyTitle (pyCollapseWs (strJoin " " parts)))

/-- Cleaning stage of normalize_email: trim, lowercase, drop spaces, one
replace pass collapsing doubled dots. -/
def cleanEmail (s : String) : String :=
  pyDedotStr (pyRemoveSpaces (pyLower (pyStrip s)))

/-- Model of NormalizerService.normalize_email: clean then validate against
the email pattern, returning the normalized email or an error message. -/
def normalize_email (value : Cell) : Option String × Option String :=
  if value.isna || (pyStrip value.pyStr).data.isEmpty then
    (none, some "Email is required")
  else
    let email := cleanEmail value.pyStr
    if emailMatches email then (some email, none)
    else (none, some ("Invalid email format: " ++ email))

/-- Characters kept by the phone normalizer: the complement of the regex
class matched by PHONE_CHARS_TO_REMOVE, i.e. digits and plus signs
(anywhere in the string, as the source regex keeps every plus sign). -/
def isPhoneKeptChar (c : Char) : Bool := isDigitChar c || c == '+'

/-- Model of NormalizerService.normalize_phone: strip, drop every character
that is not a digit or plus sign, and treat the result as absent when it is
shorter than 7 characters (the length test counts kept plus signs too). -/
def normalize_phone (value : Cell) : Option String :=
  if value.isna || (pyStrip value.pyStr).data.isEmpty then none
  else
    let phone := pyStrip value.pyStr
    let has_plus := phone.data.head? = some '+'
    let digits : String := ⟨phone.data.filter isPhoneKeptChar⟩
    if digits.data.length < 7 then none
    else if has_plus && !(digits.data.head? = some '+') then
      some ("+" ++ digits)
    else some digits

/-- Model of NormalizerService.normalize_source: lowercased trimmed value,
looked up first among enum values, then among aliases, else Other. -/
def normalize_source (value : Cell) : LeadSource :=
  if value.isna || (pyStrip value.pyStr).data.isEmpty then .other
  else
    let source_lower := pyLower (pyStrip value.pyStr)
    match (VALID_SOURCES.find? (fun p => p.1 == source_lower)).map (·.2) with
    | some s => s
    | none =>
      match (SOURCE_ALIASES.find? (fun p => p.1 == source_lower)).map (·.2) with
      | some s => s
      | none => .other

/-- Model of NormalizerService.normalize_text: trim only, blank gives None. -/
def normalize_text (value : Cell) : Option String :=
  if value.isna || (pyStrip value.pyStr).data.isEmpty then none
  else some (pyStrip value.pyStr)

/-- Merge rule record mirroring the MergeRule schema: target field, source
fields, separator (the schema default for the separator is a space). -/
structure MergeRule where
  target : String
  sources : List String
  separator : String
deriving DecidableEq, Repr

/-- Model of NormalizerService.apply_merge_rules: each rule joins the
truthy, nonblank stringified source values with its separator into the
target field, skipped when target or sources are falsy. -/
def apply_merge_rules (row : Dict Cell) (merge_rules : List MergeRule) : Dict Cell :=
  merge_rules.foldl
    (fun result rule =>
      if rule.target.data.isEmpty || rule.sources.isEmpty then result
      else
        let values := rule.sources.filterMap (fun src =>
          match dGet result src with
          | some v =>
            if v.truthy then
              let val := pyStrip v.pyStr
              if val.data.isEmpty then none else some val
            else none
          | none => none)
        if values.isEmpty then result
        else dSet result rule.target (.str (strJoin rule.separator values)))
    row

/-- Validation error record: field name and message, as the per-row error
dicts in normalize_row. -/
structure FieldError where
  field : String
  error : String
deriving DecidableEq, Repr

/-- Column-to-field application: the first loop of normalize_row, mapping
each raw column value onto its CRM field when the column is mapped. -/
def map_columns (row : Dict Cell) (mappings : Dict String) : Dict Cell :=
  row.foldl
    (fun acc p =>
      match dGet mappings p.1 with
      | some crm_field => dSet acc crm_field p.2
      | none => acc)
    []

/-- Full-name stage of normalize_row: the normalized name when the mapped
row has a full_name key, else the merged first and last name when either is
present, else nothing. -/
def fullNameValOf (mapped_row : Dict Cell) : Option (Option String) :=
  if dMem mapped_row "full_name" then
    some (normalize_name ((dGet mapped_row "full_name").getD .pynone))
  else if dMem mapped_row "first_name" || dMem mapped_row "last_name" then
    some (merge_names ((dGet mapped_row "first_name").getD .pynone)
      ((dGet mapped_row "last_name").getD .pynone))
  else none

/-- Dict entry the full-name stage stores. -/
def fullPartOf (mapped_row : Dict Cell) : Dict Cell :=
  match fullNameValOf mapped_row with
  | some v => [("full_name", optCell v)]
  | none => []

/-- Name error of normalize_row: raised when the stored full_name value is
falsy (absent, None, or an empty string). -/
def nameErrorsOf (mapped_row : Dict Cell) : List FieldError :=
  match fullNameValOf mapped_row with
  | some (some s) =>
    if s.data.isEmpty then [⟨"full_name", "Name is required"⟩] else []
  | _ => [⟨"full_name", "Name is required"⟩]

/-- Email stage of normalize_row: present only when the mapped row has an
email key. -/
def emailResOf (mapped_row : Dict Cell) : Option (Option String × Option String) :=
  if dMem mapped_row "email" then
    some (normalize_email ((dGet mapped_row "email").getD .pynone))
  else none

/-- Dict entry the email stage stores (only a truthy email is stored). -/
def emailPartOf (mapped_row : Dict Cell) : Dict Cell :=
  match emailResOf mapped_row with
  | some (some e, _) => if !e.data.isEmpty then [("email", .str e)] else []
  | _ => []

/-- Email errors of normalize_row: the normalizer message when present,
or the required-field message when the key is absent. -/
def emailErrorsOf (mapped_row : Dict Cell) : List FieldError :=
  match emailResOf mapped_row with
  | some (_, some err) => [⟨"email", err⟩]
  | some (_, none) => []
  | none => [⟨"email", "Email is required"⟩]

/-- Dict entry of the phone stage. -/
def phonePartOf (mapped_row : Dict Cell) : Dict Cell :=
  if dMem mapped_row "phone" then
    [("phone", optCell (normalize_phone ((dGet mapped_row "phone").getD .pynone)))]
  else []

/-- Dict entry of the company stage. -/
def companyPartOf (mapped_row : Dict Cell) : Dict Cell :=
  if dMem mapped_row "company" then
    [("company", optCell (normalize_text ((dGet mapped_row "company").getD .pynone)))]
  else []

/-- Dict entry of the source stage (always stored, defaulting to Other). -/
def sourcePartOf (mapped_row : Dict Cell) : Dict Cell :=
  if dMem mapped_row "source" then
    [("source", .source (normalize_source ((dGet mapped_row "source").getD .pynone)))]
  else [("source", .source .other)]

/-- Dict entry of the notes stage. -/
def notesPartOf (mapped_row : Dict Cell) : Dict Cell :=
  if dMem mapped_row "notes" then
    [("notes", optCell (normalize_text ((dGet mapped_row "notes").getD .pynone)))]
  else []

/-- Field-normalization stage of normalize_row, applied to the mapped (and
merged) row.  Every key is fresh when assigned, so the dict assignments of
the source are written as list concatenation, which is what the repeated
dSet calls on distinct keys produce. -/
def build_normalized (mapped_row : Dict Cell) : Dict Cell × List FieldError :=
  (fullPartOf mapped_row ++ emailPartOf mapped_row ++ phonePartOf mapped_row ++
      companyPartOf mapped_row ++ sourcePartOf mapped_row ++ notesPartOf mapped_row,
    nameErrorsOf mapped_row ++ emailErrorsOf mapped_row)

/-- Mapped-and-merged row of normalize_row: the column mapping followed by
the merge rules (applied only when the rule list is truthy, as in the
source; an empty rule list makes apply_merge_rules the identity anyway). -/
def mapped_row_of (row : Dict Cell) (mappings : Dict String)
    (merge_rules : List MergeRule) : Dict Cell :=
  let mapped_row := map_columns row mappings
  if !merge_rules.isEmpty then apply_merge_rules mapped_row merge_rules
  else mapped_row

/-- Model of NormalizerService.normalize_row: map columns to CRM fields,
apply merge rules, then normalize each field, collecting errors. -/
def normalize_row (row : Dict Cell) (mappings : Dict String)
    (merge_rules : List MergeRule) : Dict Cell × List FieldError :=
  build_normalized (mapped_row_of row mappings merge_rules)

/-- Invalid-row record of normalize_data: row number, original data,
partially normalized data and the error list. -/
structure InvalidRow where
  row : Int
  original : Dict Cell
  normalized : Dict Cell
  errors : List FieldError
deriving DecidableEq, Repr

/-- Recursion worker for normalize_data, carrying the enumeration index. -/
def normalize_data_go (mappings : Dict String) (merge_rules : List MergeRule) :
    Int → List (Dict Cell) → List (Dict Cell) × List InvalidRow
  | _, [] => ([], [])
  | idx, row :: rest =>
    let row_num := idx + 2
    let (normalized, errors) := normalize_row row mappings merge_rules
    let (v, inv) := normalize_data_go mappings merge_rules (idx + 1) rest
    if !errors.isEmpty then (v, ⟨row_num, row, normalized, errors⟩ :: inv)
    else (dSet normalized "_row_num" (.int row_num) :: v, inv)

/-- Model of NormalizerService.normalize_data: normalize every row,
tagging valid rows with their Excel-style row number (index + 2) and
collecting invalid rows with their errors. -/
def normalize_data (data : List (Dict Cell)) (mappings : Dict String)
    (merge_rules : List MergeRule) : List (Dict Cell) × List InvalidRow :=
  normalize_data_go mappings merge_rules 0 data

/-! ## DeduplicatorService (app/services/lead_import/deduplicator.py) -/

/-- Lead record, the slice of app/models/lead.py the import pipeline reads
and writes. -/
structure Lead where
  id : Int
  full_name : String
  email : String
  phone : Option String
  source : LeadSource
  status : LeadStatus
deriving DecidableEq, Repr

/-- Model of row.get(k): the stored cell, or Python None when absent. -/
def rowGetD (row : Dict Cell) (k : String) : Cell := (dGet row k).getD .pynone

/-- Row number of a pipeline row, modelling row.get of the _row_num key with
default 0.  Rows produced by normalize_data always carry an int here; for a
row without the key the Python default 0 is used (the source also compares
the raw absent value against row-number sets in one place, which can only
differ from this model for rows that never occur in the pipeline). -/
def row_num_of (row : Dict Cell) : Int :=
  match dGet row "_row_num" with
  | some (.int n) => n
  | _ => 0

/-- Ordered grouping dict insert: append the row number to the group of the
key, creating the group at the end on first sight (Python dict order). -/
def addGroup (gs : List (Cell × List Int)) (k : Cell) (r : Int) :
    List (Cell × List Int) :=
  if gs.any (fun g => g.1 == k) then
    gs.map (fun g => if g.1 == k then (g.1, g.2 ++ [r]) else g)
  else gs ++ [(k, [r])]

/-- One in-file duplicate group, mirroring the dicts built by
find_in_file_duplicates. -/
structure InFileDup where
  rows : List Int
  match_type : String
  match_value : Cell
  reason : String
deriving DecidableEq, Repr

/-- Model of DeduplicatorService.find_in_file_duplicates: group rows by
email, report groups larger than one, then group rows not already caught
by phone and report those groups. -/
def find_in_file_duplicates (data : List (Dict Cell)) : List InFileDup :=
  let email_groups := data.foldl
    (fun gs row =>
      let email := rowGetD row "email"
      if email.truthy then addGroup gs email (row_num_of row) else gs)
    []
  let duplicates := email_groups.filterMap
    (fun g =>
      if g.2.length > 1 then
        some ⟨g.2, "email", g.1, "Same email: " ++ g.1.pyStr⟩
      else none)
  let caught_rows := duplicates.foldl (fun s d => s ++ d.rows) []
  let phone_groups := data.foldl
    (fun gs row =>
      let phone := rowGetD row "phone"
      let r := row_num_of row
      if phone.truthy && !(caught_rows.contains r) then addGroup gs phone r
      else gs)
    []
  duplicates ++ phone_groups.filterMap
    (fun g =>
      if g.2.length > 1 then
        some ⟨g.2, "phone", g.1, "Same phone: " ++ g.1.pyStr⟩
      else none)

/-- One match against an existing lead, mirroring the dicts built by
find_existing_duplicates (import_data is flattened into the three fields the
source copies out of the row). -/
structure ExistingDup where
  import_row : Int
  import_full_name : Cell
  import_email : Cell
  import_phone : Cell
  existing_lead_id : Int
  existing_lead : Lead
  match_type : String
  match_value : Cell
deriving DecidableEq, Repr

/-- Lowercased email key of a row, modelling row.get of email with default
empty string followed by str.lower (pipeline rows store strings here). -/
def emailKeyOf (row : Dict Cell) : String :=
  pyLower (((dGet row "email").map Cell.pyStr).getD "")

/-- Model of DeduplicatorService.find_existing_duplicates: batch-collect the
emails and phones of the import rows, index the matching leads by lowercased
email and by phone, then match each row by email first, else by phone. -/
def find_existing_duplicates (db : List Lead) (data : List (Dict Cell)) :
    List ExistingDup :=
  let emails := data.filterMap (fun row =>
    let e := rowGetD row "email"
    if e.truthy then some e else none)
  let phones := data.filterMap (fun row =>
    let p := rowGetD row "phone"
    if p.truthy then some p else none)
  let existing_by_email : Dict Lead :=
    if !emails.isEmpty then
      (db.filter (fun l => emails.contains (.str l.email))).foldl
        (fun m l => dSet m (pyLower l.email) l) []
    else []
  let existing_by_phone : Dict Lead :=
    if !phones.isEmpty then
      (db.filter (fun l =>
        match l.phone with
        | some p => phones.contains (.str p)
        | none => false)).foldl
        (fun m l =>
          match l.phone with
          | some p => if !p.data.isEmpty then dSet m p l else m
          | none => m)
        []
    else []
  data.filterMap (fun row =>
    let row_num := row_num_of row
    let email := emailKeyOf row
    match dGet existing_by_email email with
    | some lead =>
      some ⟨row_num, rowGetD row "full_name", rowGetD row "email",
        rowGetD row "phone", lead.id, lead, "email", .str email⟩
    | none =>
      let phone := rowGetD row "phone"
      if phone.truthy then
        match phone with
        | .str p =>
          match dGet existing_by_phone p with
          | some lead =>
            some ⟨row_num, rowGetD row "full_name", rowGetD row "email",
              rowGetD row "phone", lead.id, lead, "phone", phone⟩
          | none => none
        | _ => none
      else none)

/-- Similarity threshold constant of DeduplicatorService. -/
def NAME_SIMILARITY_THRESHOLD : ℚ := 0.85

/-- Model of DeduplicatorService.name_similarity: zero when either name is
falsy, else the SequenceMatcher ratio of the lowercased trimmed names.  The
ratio itself is difflib library behaviour and is a parameter. -/
def name_similarity (ratio : String → String → ℚ) (name1 name2 : String) : ℚ :=
  if name1.data.isEmpty || name2.data.isEmpty then 0
  else ratio (pyStrip (pyLower name1)) (pyStrip (pyLower name2))

/-- Round-half-to-even on rationals, the idealized model of Python round
applied to the similarity percentage. -/
def pyRound0 (q : ℚ) : ℤ :=
  let f := ⌊q⌋
  let r := q - f
  if r < 1 / 2 then f
  else if 1 / 2 < r then f + 1
  else if Even f then f else f + 1

/-- Model of round(x, 1) on the similarity percentage. -/
def pyRound1 (q : ℚ) : ℚ := (pyRound0 (q * 10) : ℚ) / 10

/-- One smart match, mirroring the dicts built by find_smart_matches. -/
structure SmartMatch where
  import_row : Int
  import_full_name : Cell
  import_email : Cell
  import_phone : Cell
  existing_lead_id : Int
  existing_lead : Lead
  match_type : String
  similarity : ℚ
  reason : String
deriving DecidableEq, Repr

/-- Name of a pipeline row for fuzzy matching, modelling row.get of
full_name with default empty string (pipeline rows store strings here; a
stored None behaves like the empty string, both giving similarity 0). -/
def smartNameOf (row : Dict Cell) : String :=
  match dGet row "full_name" with
  | some (.str s) => s
  | _ => ""

/-- Row pool of find_smart_matches: rows with a truthy company that were
not claimed by the exact-match pass. -/
def smart_pool (data : List (Dict Cell)) (existing_duplicates : List ExistingDup) :
    List (Dict Cell) :=
  let matched_rows := existing_duplicates.map (·.import_row)
  data.filter (fun row =>
    (rowGetD row "company").truthy && !(matched_rows.contains (row_num_of row)))

/-- Inner loop of find_smart_matches for one row: the first lead of the
pool whose name similarity reaches the threshold yields the match. -/
def smart_match_for (ratio : String → String → ℚ) (all_leads : List Lead)
    (row : Dict Cell) : Option SmartMatch :=
  let row_num := row_num_of row
  let name := smartNameOf row
  all_leads.findSome? (fun lead =>
    let similarity := name_similarity ratio name lead.full_name
    if NAME_SIMILARITY_THRESHOLD ≤ similarity then
      some ⟨row_num, rowGetD row "full_name", rowGetD row "email",
        rowGetD row "phone", lead.id, lead, "smart",
        pyRound1 (similarity * 100),
        "Similar name (" ++ toString (pyRound0 (similarity * 100)) ++ "% match)"⟩
    else none)

/-- Model of DeduplicatorService.find_smart_matches: among rows that have a
truthy company and are not already matched by find_existing_duplicates, take
the first of the first 1000 leads whose name similarity reaches the
threshold.  The companies list the source computes is dead code and the
query it feeds is name-only over all leads, so the lead pool is the stored
lead list capped at 1000. -/
def find_smart_matches (ratio : String → String → ℚ) (db : List Lead)
    (data : List (Dict Cell)) (existing_duplicates : List ExistingDup) :
    List SmartMatch :=
  let rows_with_company := smart_pool data existing_duplicates
  if rows_with_company.isEmpty then []
  else rows_with_company.filterMap (smart_match_for ratio (db.take 1000))

/-- Bundle of the three detection passes, mirroring detect_all_duplicates. -/
structure DuplicateResult where
  in_file_duplicates : List InFileDup
  existing_duplicates : List ExistingDup
  smart_matches : List SmartMatch
  total_duplicates : Nat
deriving DecidableEq, Repr

/-- Model of DeduplicatorService.detect_all_duplicates: run the three
passes in order, feeding the exact matches into the smart pass. -/
def detect_all_duplicates (ratio : String → String → ℚ) (db : List Lead)
    (data : List (Dict Cell)) : DuplicateResult :=
  let in_file := find_in_file_duplicates data
  let existing := find_existing_duplicates db data
  let smart := find_smart_matches ratio db data existing
  ⟨in_file, existing, smart, in_file.length + existing.length + smart.length⟩

/-! ## AnalyzerService (app/services/lead_import/analyzer.py) -/

theorem char_eq_of_toNat_eq {a b : Char} (h : a.toNat = b.toNat) : a = b := by
  have := congrArg Char.ofNat h
  rwa [Char.ofNat_toNat, Char.ofNat_toNat] at this

/-- Lexicographic code-point comparison of character lists, the order Python
sorted uses on strings. -/
def strLeB : List Char → List Char → Bool
  | [], _ => true
  | _ :: _, [] => false
  | a :: as, b :: bs =>
    if a.toNat < b.toNat then true
    else if b.toNat < a.toNat then false
    else strLeB as bs

/-- Propositional form of the string order. -/
def strLe (s t : String) : Prop := strLeB s.data t.data = true

instance : DecidableRel strLe := fun s t => by
  unfold strLe
  infer_instance

theorem strLeB_total (as : List Char) : ∀ bs, strLeB as bs = true ∨ strLeB bs as = true := by
  induction as with
  | nil => intro bs; left; rfl
  | cons a as ih =>
    intro bs
    rcases bs with _ | ⟨b, bs⟩
    · right; rfl
    · show (if a.toNat < b.toNat then true
        else if b.toNat < a.toNat then false else strLeB as bs) = true ∨
        (if b.toNat < a.toNat then true
        else if a.toNat < b.toNat then false else strLeB bs as) = true
      rcases Nat.lt_trichotomy a.toNat b.toNat with h | h | h
      · left; rw [if_pos h]
      · rw [if_neg (by omega), if_neg (by omega), if_neg (by omega), if_neg (by omega)]
        exact ih bs
      · right; rw [if_pos h]

theorem strLeB_trans (as : List Char) : ∀ bs cs, strLeB as bs = true →
    strLeB bs cs = true → strLeB as cs = true := by
  induction as with
  | nil => intro bs cs _ _; rfl
  | cons a as ih =>
    intro bs cs hab hbc
    rcases bs with _ | ⟨b, bs⟩
    · exact absurd hab (by simp [strLeB])
    · rcases cs with _ | ⟨c, cs⟩
      · exact absurd hbc (by simp [strLeB])
      · show (if a.toNat < c.toNat then true
          else if c.toNat < a.toNat then false else strLeB as cs) = true
        have hab' : (if a.toNat < b.toNat then true
          else if b.toNat < a.toNat then false else strLeB as bs) = true := hab
        have hbc' : (if b.toNat < c.toNat then true
          else if c.toNat < b.toNat then false else strLeB bs cs) = true := hbc
        rcases Nat.lt_trichotomy a.toNat b.toNat with h1 | h1 | h1
        · rcases Nat.lt_trichotomy b.toNat c.toNat with h2 | h2 | h2
          · rw [if_pos (by omega)]
          · rw [if_pos (by omega)]
          · rw [if_neg (by omega), if_pos (by omega)] at hbc'
            exact absurd hbc' (by simp)
        · rcases Nat.lt_trichotomy b.toNat c.toNat with h2 | h2 | h2
          · rw [if_pos (by omega)]
          · rw [if_neg (by omega), if_neg (by omega)]
            rw [if_neg (by omega), if_neg (by omega)] at hab'
            rw [if_neg (by omega), if_neg (by omega)] at hbc'
            exact ih bs cs hab' hbc'
          · rw [if_neg (by omega), if_pos (by omega)] at hbc'
            exact absurd hbc' (by simp)
        · rw [if_neg (by omega), if_pos (by omega)] at hab'
          exact absurd hab' (by simp)

theorem strLeB_antisymm (as : List Char) : ∀ bs, strLeB as bs = true →
    strLeB bs as = true → as = bs := by
  induction as with
  | nil =>
    intro bs _ hba
    rcases bs with _ | ⟨b, bs⟩
    · rfl
    · exact absurd hba (by simp [strLeB])
  | cons a as ih =>
    intro bs hab hba
    rcases bs with _ | ⟨b, bs⟩
    · exact absurd hab (by simp [strLeB])
    · have hab' : (if a.toNat < b.toNat then true
        else if b.toNat < a.toNat then false else strLeB as bs) = true := hab
      have hba' : (if b.toNat < a.toNat then true
        else if a.toNat < b.toNat then false else strLeB bs as) = true := hba
      rcases Nat.lt_trichotomy a.toNat b.toNat with h1 | h1 | h1
      · rw [if_neg (by omega), if_pos (by omega)] at hba'
        exact absurd hba' (by simp)
      · rw [if_neg (by omega), if_neg (by omega)] at hab'
        rw [if_neg (by omega), if_neg (by omega)] at hba'
        rw [char_eq_of_toNat_eq h1.symm, ih bs hab' hba']
      · rw [if_neg (by omega), if_pos (by omega)] at hab'
        exact absurd hab' (by simp)

instance : IsTotal String strLe :=
  ⟨fun s t => strLeB_total s.data t.data⟩

instance : IsTrans String strLe :=
  ⟨fun s t u => strLeB_trans s.data t.data u.data⟩

instance : IsAntisymm String strLe :=
  ⟨fun s t hab hba => by
    rcases s with ⟨ds⟩
    rcases t with ⟨dt⟩
    exact congrArg String.mk (strLeB_antisymm ds dt hab hba)⟩

/-- Sorting of column names, modelling Python sorted on strings. -/
def sortStrings (l : List String) : List String := l.insertionSort strLe

/-- Model of AnalyzerService.generate_column_signature: lowercase and trim
each column name, sort, join with a pipe, hash.  The MD5 digest is an
injective-free external function passed as a parameter; the theorems only
use that equal inputs give equal digests. -/
def generate_column_signature (md5 : String → String) (columns : List String) :
    String :=
  md5 (strJoin "|" (sortStrings (columns.map (fun c => pyStrip (pyLower c)))))

/-- CRM field alias table of the analyzer, in source dict order. -/
def CRM_FIELDS : List (String × List String) :=
  [("full_name", ["name", "fullname", "full name", "contact name", "lead name"]),
   ("first_name", ["firstname", "first", "fname", "given name"]),
   ("last_name", ["lastname", "last", "lname", "surname", "family name"]),
   ("email", ["e-mail", "email address", "emailaddress", "mail"]),
   ("phone", ["telephone", "tel", "mobile", "cell", "phone number",
     "phonenumber", "contact number"]),
   ("company", ["company name", "organization", "org", "business", "employer"]),
   ("source", ["lead source", "leadsource", "origin", "channel"]),
   ("notes", ["note", "comments", "comment", "description", "remarks"])]

/-- Alias pass of suggest_mappings for one column: the first unused CRM
field whose name or alias list matches the lowercased trimmed column. -/
def alias_lookup (used_fields : List String) (col_lower : String) :
    Option String :=
  CRM_FIELDS.findSome? (fun f =>
    if used_fields.contains f.1 then none
    else if col_lower == f.1 || f.2.contains col_lower then some f.1
    else none)

/-- Non-null sample of up to 100 values of a column, modelling
df of col dropna head 100. -/
def sampleOf (values : List Cell) : List Cell :=
  (values.filter (fun v => !v.isna)).take 100

/-- Count of sampled values matching the email pattern after str
conversion. -/
def emailMatchCount (values : List Cell) : Nat :=
  ((sampleOf values).filter (fun v => emailMatches v.pyStr)).length

/-- Count of sampled values matching the loose phone pattern after str
conversion. -/
def phoneMatchCount (values : List Cell) : Nat :=
  ((sampleOf values).filter (fun v => phoneMatches v.pyStr)).length

/-- Content-sniffing pass of suggest_mappings for one column with no alias
hit: suggest email when strictly more than 80 percent of the sample matches
the email regex, else phone when strictly more than 70 percent matches the
phone regex.  The float comparisons count / len greater than 0.8 and 0.7
are modelled by the exact cross-multiplied integer comparisons, which agree
with the float evaluation for every sample size up to the cap of 100. -/
def suggest_content (used_fields : List String) (values : List Cell) :
    Option String :=
  if (sampleOf values).length > 0 then
    if !used_fields.contains "email" &&
        5 * emailMatchCount values > 4 * (sampleOf values).length then
      some "email"
    else if !used_fields.contains "phone" &&
        10 * phoneMatchCount values > 7 * (sampleOf values).length then
      some "phone"
    else none
  else none

/-- Model of AnalyzerService.suggest_mappings over a column-major table:
walk the columns in order, first trying the alias table, then content
sniffing, keeping at most one column per CRM field. -/
def suggest_mappings (df : List (String × List Cell)) : Dict String :=
  (df.foldl
    (fun (acc : Dict String × List String) col =>
      let col_lower := pyStrip (pyLower col.1)
      match alias_lookup acc.2 col_lower with
      | some field => (dSet acc.1 col.1 field, acc.2 ++ [field])
      | none =>
        match suggest_content acc.2 col.2 with
        | some field => (dSet acc.1 col.1 field, acc.2 ++ [field])
        | none => acc)
    ([], [])).1

/-! ## SessionManager, endpoints and TemplateManager
(app/services/lead_import/session_manager.py, template_manager.py,
app/api/v1/endpoints/lead_import.py) -/

/-- Import session status enum from app/models/import_session.py. -/
inductive ImportStatus
  | analyzing
  | mapping
  | normalizing
  | deduplicating
  | ready
  | completed
  | failed
deriving DecidableEq, Repr

/-- Stored string value of an ImportStatus member. -/
def ImportStatus.value : ImportStatus → String
  | .analyzing => "analyzing"
  | .mapping => "mapping"
  | .normalizing => "normalizing"
  | .deduplicating => "deduplicating"
  | .ready => "ready"
  | .completed => "completed"
  | .failed => "failed"

/-- Final import summary, the result dict built by execute_import. -/
structure ImportResult where
  total_rows : Int
  inserted : Nat
  updated : Nat
  skipped : Nat
  errors : Nat
deriving DecidableEq, Repr

/-- ImportSession record: the columns of app/models/import_session.py 
touched by the import pipeline. -/
structure ImportSession where
  id : Int
  user_id : Int
  status : ImportStatus
  error_message : Option String
  file_name : String
  detected_columns : List String
  suggested_mappings : Dict String
  user_mappings : Dict String
  merge_rules : List MergeRule
  ignored_columns : List String
  total_rows : Int
  valid_rows : Int
  normalized_data : List (Dict Cell)
  validation_errors : List InvalidRow
  in_file_duplicates : List InFileDup
  existing_duplicates : List ExistingDup
  smart_matches : List SmartMatch
  duplicate_decisions : Dict String
  import_result : Option ImportResult
  inserted_lead_ids : List Int
  updated_lead_ids : List Int
deriving DecidableEq, Repr

/-- Model of SessionManager.update_mapping: store the user mapping and move
to normalizing (the commit is immediate, so the record is the persisted
state). -/
def SessionManager.update_mapping (s : ImportSession) (user_mappings : Dict String)
    (merge_rules : List MergeRule) (ignored_columns : List String) : ImportSession :=
  { s with
    user_mappings := user_mappings
    merge_rules := merge_rules
    ignored_columns := ignored_columns
    status := .normalizing }

/-- Model of SessionManager.update_normalized_data. -/
def SessionManager.update_normalized_data (s : ImportSession)
    (valid_rows : List (Dict Cell)) (invalid_rows : List InvalidRow) : ImportSession :=
  { s with
    normalized_data := valid_rows
    valid_rows := (valid_rows.length : Int)
    validation_errors := invalid_rows
    status := .deduplicating }

/-- Model of SessionManager.update_duplicates. -/
def SessionManager.update_duplicates (s : ImportSession) (dup : DuplicateResult) :
    ImportSession :=
  { s with
    in_file_duplicates := dup.in_file_duplicates
    existing_duplicates := dup.existing_duplicates
    smart_matches := dup.smart_matches
    status := .ready }

/-- Model of SessionManager.update_duplicate_decisions: stores decisions
without a state transition. -/
def SessionManager.update_duplicate_decisions (s : ImportSession)
    (decisions : Dict String) : ImportSession :=
  { s with duplicate_decisions := decisions }

/-- Model of SessionManager.complete_session. -/
def SessionManager.complete_session (s : ImportSession) (result : ImportResult)
    (inserted_ids updated_ids : List Int) : ImportSession :=
  { s with
    status := .completed
    import_result := some result
    inserted_lead_ids := inserted_ids
    updated_lead_ids := updated_ids }

/-- Model of SessionManager.fail_session.  The source defines this
operation but no code path ever calls it. -/
def SessionManager.fail_session (s : ImportSession) (error_message : String) :
    ImportSession :=
  { s with status := .failed, error_message := some error_message }

/-- Reusable mapping template record from app/models/mapping_template.py. -/
structure MappingTemplate where
  id : Int
  name : String
  description : Option String
  created_by_id : Int
  is_default : Bool
  is_active : Bool
  mappings : Dict String
  merge_rules : List MergeRule
  ignored_columns : List String
  column_signature : Option String
  use_count : Int
deriving DecidableEq, Repr

/-- Model of TemplateManager.create_template: a fresh active template with
use count zero; the column_signature argument defaults to None at callers
that omit it. -/
def TemplateManager.create_template (id : Int) (user_id : Int) (name : String)
    (mappings : Dict String) (merge_rules : List MergeRule)
    (ignored_columns : List String) (column_signature : Option String)
    (description : Option String) (is_default : Bool) : MappingTemplate :=
  { id := id, name := name, description := description,
    created_by_id := user_id, is_default := is_default, is_active := true,
    mappings := mappings, merge_rules := merge_rules,
    ignored_columns := ignored_columns, column_signature := column_signature,
    use_count := 0 }

/-- Model of TemplateManager.find_matching_templates: active templates whose
stored signature equals the given one (an SQL NULL signature never equals a
string), ordered by descending use count. -/
def find_matching_templates (templates : List MappingTemplate)
    (column_signature : String) : List MappingTemplate :=
  (templates.filter (fun t =>
    t.column_signature == some column_signature && t.is_active)).insertionSort
    (fun a b => b.use_count ≤ a.use_count)

/-- Request body of POST import/templates, mirroring the TemplateCreate
schema (no column_signature field exists in it). -/
structure TemplateCreate where
  name : String
  description : Option String
  mappings : Dict String
  merge_rules : List MergeRule
  ignored_columns : List String
  is_default : Bool
deriving DecidableEq, Repr

/-- Model of the create_template endpoint (POST import/templates): it calls
TemplateManager.create_template without a column_signature, so the stored
signature is the default None. -/
def create_template_endpoint (id : Int) (user_id : Int) (td : TemplateCreate) :
    MappingTemplate :=
  TemplateManager.create_template id user_id td.name td.mappings
    td.merge_rules td.ignored_columns none td.description td.is_default

/-- Request body of the mapping submission endpoint. -/
structure MappingSubmission where
  mappings : Dict String
  merge_rules : List MergeRule
  ignored_columns : List String
  save_as_template : Bool
  template_name : Option String
deriving DecidableEq, Repr

/-- Response of the mapping submission endpoint; mapped_fields is the
deduplicated list of mapped CRM fields (a Python set, modelled with
first-occurrence order). -/
structure MappingResponse where
  session_id : Int
  status : String
  mapped_fields : List String
deriving DecidableEq, Repr

/-- Outcome of the submit_mapping endpoint after session retrieval: either
the updated session (with the template store and response), or the
invalid-phase client error, which leaves the session untouched. -/
inductive SubmitOutcome
  | ok (s : ImportSession) (templates : List MappingTemplate) (resp : MappingResponse)
  | invalid_phase (s : ImportSession) (detail : String)
deriving DecidableEq, Repr

/-- Model of the submit_mapping endpoint (POST import/session/mapping),
starting after session retrieval.  External collaborators are parameters:
md5 is the digest function, ratio the difflib similarity, db the lead
table, templates the template store with a fresh template id, and
parsed_file the record-oriented output of pandas reading the stored file
bytes (the endpoint then lowercases and trims the column names).  When the
session is not in mapping status the endpoint raises a 400 and nothing is
mutated; otherwise phases 3 and 4 run synchronously and the session ends in
ready status. -/
def submit_mapping (md5 : String → String) (ratio : String → String → ℚ)
    (db : List Lead) (templates : List MappingTemplate) (template_id : Int)
    (s : ImportSession) (sub : MappingSubmission)
    (parsed_file : List (Dict Cell)) : SubmitOutcome :=
  if s.status ≠ .mapping then
    .invalid_phase s
      ("Session is in '" ++ s.status.value ++ "' status, expected 'mapping'")
  else
    let s := SessionManager.update_mapping s sub.mappings sub.merge_rules
      sub.ignored_columns
    let templates :=
      if sub.save_as_template &&
          (match sub.template_name with
           | some n => !n.data.isEmpty
           | none => false) then
        templates ++ [TemplateManager.create_template template_id s.user_id
          ((sub.template_name).getD "") sub.mappings sub.merge_rules
          sub.ignored_columns
          (some (generate_column_signature md5 s.detected_columns)) none false]
      else templates
    let data := parsed_file.map (fun row =>
      row.map (fun p => (pyStrip (pyLower p.1), p.2)))
    let norm := normalize_data data sub.mappings sub.merge_rules
    let s := SessionManager.update_normalized_data s norm.1 norm.2
    let dup := detect_all_duplicates ratio db norm.1
    let s := SessionManager.update_duplicates s dup
    .ok s templates ⟨s.id, s.status.value, (sub.mappings.map (·.2)).eraseDups⟩

/-- Duplicate decision enum of the request schema. -/
inductive Decision
  | skip
  | update
  | insert
deriving DecidableEq, Repr

/-- Stored string value of a Decision member. -/
def Decision.value : Decision → String
  | .skip => "skip"
  | .update => "update"
  | .insert => "insert"

/-- Set-insert on a list of row numbers, modelling Python set.add and
set.update element steps. -/
def sinsert (l : List Int) (x : Int) : List Int :=
  if l.contains x then l else l ++ [x]

/-- Update of the row-to-lead map built by execute_import. -/
def upsertInt (m : List (Int × Int)) (k v : Int) : List (Int × Int) :=
  if m.any (fun p => p.1 == k) then
    m.map (fun p => if p.1 == k then (k, v) else p)
  else m ++ [(k, v)]

/-- Lookup in the row-to-lead map. -/
def lookupInt (m : List (Int × Int)) (k : Int) : Option Int :=
  (m.find? (fun p => p.1 == k)).map (·.2)

/-- Loop state of the lead-import loop of execute_import. -/
structure ExecuteState where
  inserted_ids : List Int
  updated_ids : List Int
  errors : Nat
  next_id : Int
deriving DecidableEq, Repr

/-- External-world parameters of execute_import: the lead table, the id the
store will give the next inserted lead, which per-row operations raise (the
body of the per-row try block: lead construction, insertion, update and
their commits), and whether the final completing commit raises. -/
structure ExecWorld where
  db : List Lead
  next_lead_id : Int
  row_op_raises : Int → Bool
  final_commit_raises : Bool

/-- Response of the execute endpoint. -/
structure ExecuteImportResponse where
  session_id : Int
  status : String
  summary : ImportResult
  inserted_lead_ids : List Int
  updated_lead_ids : List Int
deriving DecidableEq, Repr

/-- Outcome of the execute_import endpoint after session retrieval: ok with
the completed session, the invalid-phase client error, or an unhandled
exception escaping the handler; in the last case the carried session is the
persisted state at the moment of the raise. -/
inductive ExecOutcome
  | ok (s : ImportSession) (resp : ExecuteImportResponse)
  | invalid_phase (s : ImportSession) (detail : String)
  | raised (s : ImportSession)
deriving DecidableEq, Repr

/-- Model of the execute_import endpoint (POST import/session/execute),
starting after session retrieval.  It guards on ready status, stores the
decisions, skips all but the first row of each in-file duplicate group,
applies per-row decisions for exact and smart matches (default skip),
then inserts or updates the remaining rows, counting per-row exceptions
without aborting.  The endpoint has no exception handler around the final
completion, so when that commit raises, the outcome is an escaped exception
with the session still in ready status — fail_session is never invoked. -/
def execute_import (w : ExecWorld) (s : ImportSession) (request : Dict Decision) :
    ExecOutcome :=
  if s.status ≠ .ready then
    .invalid_phase s
      ("Session is in '" ++ s.status.value ++ "' status, expected 'ready'")
  else
    let decisions : Dict String := request.map (fun p => (p.1, p.2.value))
    let s := SessionManager.update_duplicate_decisions s decisions
    let skip_rows := s.in_file_duplicates.foldl
      (fun acc dup =>
        if dup.rows.length > 1 then dup.rows.tail.foldl sinsert acc else acc)
      []
    let st := s.existing_duplicates.foldl
      (fun (acc : List Int × List (Int × Int)) dup =>
        let action := (dGet decisions (toString dup.import_row)).getD "skip"
        if action == "skip" then (sinsert acc.1 dup.import_row, acc.2)
        else if action == "update" then
          (acc.1, upsertInt acc.2 dup.import_row dup.existing_lead_id)
        else acc)
      (skip_rows, [])
    let st := s.smart_matches.foldl
      (fun (acc : List Int × List (Int × Int)) m =>
        let action := (dGet decisions (toString m.import_row)).getD "skip"
        if action == "skip" then (sinsert acc.1 m.import_row, acc.2)
        else if action == "update" then
          (acc.1, upsertInt acc.2 m.import_row m.existing_lead_id)
        else acc)
      st
    let skip_rows := st.1
    let update_rows := st.2
    let es := s.normalized_data.foldl
      (fun (es : ExecuteState) row =>
        let row_num := row_num_of row
        if skip_rows.contains row_num then es
        else if w.row_op_raises row_num then { es with errors := es.errors + 1 }
        else
          match lookupInt update_rows row_num with
          | some lead_id =>
            match w.db.find? (fun l => l.id == lead_id) with
            | some _ => { es with updated_ids := es.updated_ids ++ [lead_id] }
            | none => es
          | none =>
            { es with
              inserted_ids := es.inserted_ids ++ [es.next_id]
              next_id := es.next_id + 1 })
      ⟨[], [], 0, w.next_lead_id⟩
    let result : ImportResult := ⟨s.total_rows, es.inserted_ids.length,
      es.updated_ids.length, skip_rows.length, es.errors⟩
    if w.final_commit_raises then .raised s
    else
      let s := SessionManager.complete_session s result es.inserted_ids
        es.updated_ids
      .ok s ⟨s.id, s.status.value, result, es.inserted_ids, es.updated_ids⟩

/-! ## Claim theorems -/

/-- C7: for every list of column names, the column signature is invariant
under reordering of the columns and under case and surrounding-whitespace
changes to each name — formally, any two column lists whose lowercased
trimmed names are permutations of each other produce the same signature,
for every digest function. -/
theorem column_signature_invariant (md5 : String → String)
    (cols1 cols2 : List String)
    (h : (cols1.map (fun c => pyStrip (pyLower c))).Perm
      (cols2.map (fun c => pyStrip (pyLower c)))) :
    generate_column_signature md5 cols1 = generate_column_signature md5 cols2 := by
  unfold generate_column_signature
  congr 1
  congr 1
  unfold sortStrings
  apply List.eq_of_perm_of_sorted (r := strLe)
  · exact (List.perm_insertionSort _ _).trans
      (h.trans (List.perm_insertionSort _ _).symm)
  · exact List.sorted_insertionSort strLe _
  · exact List.sorted_insertionSort strLe _

/-- Witness for C7: a shuffled, upper-cased, whitespace-padded variant of
the same column names hashes identically. -/
theorem column_signature_invariant_witness :
    generate_column_signature (fun s => s) ["Name", "Email"] =
      generate_column_signature (fun s => s) ["  EMAIL ", "name"] :=
  column_signature_invariant (fun s => s) ["Name", "Email"] ["  EMAIL ", "name"]
    (by decide)

/-- C5 counterexample: the phone value made of a plus sign and six digits
has digit count 6, below 7, yet normalization keeps it instead of treating
it as absent — the length check of the source counts the kept plus sign. -/
theorem normalize_phone_boundary_counterexample :
    normalize_phone (.str "+123456") = some "+123456" ∧
      (("+123456" : String).data.filter isDigitChar).length = 6 ∧
      ¬ (7 : Nat) ≤ 6 := by
  refine ⟨by decide, by decide, by decide⟩

theorem filter_phone_head_plus {cs : List Char} {rest : List Char}
    (h : cs.head? = some '+') (hr : cs = '+' :: rest) :
    (cs.filter isPhoneKeptChar).head? = some '+' := by
  subst hr
  rw [List.filter_cons, if_pos (by decide)]
  rfl

/-- Shape of normalize_phone on a kept value: when the cell is neither
missing nor blank and the kept characters number at least 7, the result is
exactly the filtered character list (the plus-restoring branch of the
source is dead code, since a leading plus survives the filter). -/
theorem normalize_phone_eq_filter (v : Cell)
    (h1 : (v.isna || (pyStrip v.pyStr).data.isEmpty) = false)
    (h2 : ¬(((pyStrip v.pyStr).data.filter isPhoneKeptChar).length < 7)) :
    normalize_phone v = some ⟨(pyStrip v.pyStr).data.filter isPhoneKeptChar⟩ := by
  unfold normalize_phone
  rw [if_neg (by simp [h1])]
  simp only []
  rw [if_neg (by omega)]
  by_cases hp : (pyStrip v.pyStr).data.head? = some '+'
  · rcases hd : (pyStrip v.pyStr).data with _ | ⟨c, rest⟩
    · rw [hd] at hp; simp at hp
    · have hc : c = '+' := by
        rw [hd] at hp; simpa using hp
      subst hc
      have := @filter_phone_head_plus ('+' :: rest) rest (by simp) rfl
      rw [if_neg (by simp [hd, this])]
  · rw [if_neg (by simp [hp])]

/-- C5 amended: normalization strips every character other than digits and
plus signs (a plus sign is kept wherever it occurs), treats the phone as
absent exactly when the value is missing, blank, or the kept characters
(digits and plus signs together) number fewer than 7, and a phone never
contributes a row-level validation error (every error is tagged full_name
or email). -/
theorem normalize_phone_amended :
    (∀ v : Cell, normalize_phone v = none ↔
      (v.isna = true ∨ (pyStrip v.pyStr).data = [] ∨
        ((pyStrip v.pyStr).data.filter isPhoneKeptChar).length < 7)) ∧
    (∀ (v : Cell) (s : String), normalize_phone v = some s →
      s = ⟨(pyStrip v.pyStr).data.filter isPhoneKeptChar⟩) ∧
    (∀ (row : Dict Cell) (mappings : Dict String) (merge_rules : List MergeRule)
      (e : FieldError), e ∈ (normalize_row row mappings merge_rules).2 →
      e.field = "full_name" ∨ e.field = "email") := by
  have hdead : ∀ v : Cell, (v.isna || (pyStrip v.pyStr).data.isEmpty) = false →
      ¬(7 > ((pyStrip v.pyStr).data.filter isPhoneKeptChar).length) →
      normalize_phone v = some ⟨(pyStrip v.pyStr).data.filter isPhoneKeptChar⟩ :=
    fun v h1 h2 => normalize_phone_eq_filter v h1 (by omega)
  refine ⟨?_, ?_, ?_⟩
  · intro v
    constructor
    · intro h
      by_cases h1 : (v.isna || (pyStrip v.pyStr).data.isEmpty) = true
      · rcases Bool.or_eq_true_iff.mp h1 with h2 | h2
        · left; exact h2
        · right; left; exact List.isEmpty_iff.mp h2
      · have h1' := Bool.not_eq_true _ |>.mp h1
        by_cases h2 : ((pyStrip v.pyStr).data.filter isPhoneKeptChar).length < 7
        · right; right; exact h2
        · exact absurd (hdead v h1' (by omega)) (by rw [h]; simp)
    · intro h
      rcases h with h | h | h
      · unfold normalize_phone
        rw [if_pos (by simp [h])]
      · unfold normalize_phone
        rw [if_pos (by simp [List.isEmpty_iff.mpr h])]
      · unfold normalize_phone
        by_cases h1 : (v.isna || (pyStrip v.pyStr).data.isEmpty) = true
        · rw [if_pos h1]
        · rw [if_neg (by simp [h1])]
          simp only []
          rw [if_pos (by omega)]
  · intro v s h
    by_cases h1 : (v.isna || (pyStrip v.pyStr).data.isEmpty) = true
    · unfold normalize_phone at h
      rw [if_pos h1] at h
      exact absurd h (by simp)
    · have h1' := Bool.not_eq_true _ |>.mp h1
      by_cases h2 : ((pyStrip v.pyStr).data.filter isPhoneKeptChar).length < 7
      · unfold normalize_phone at h
        rw [if_neg (by simp [h1'])] at h
        simp only [] at h
        rw [if_pos (by omega)] at h
        exact absurd h (by simp)
      · have := hdead v h1' (by omega)
        rw [this] at h
        exact (Option.some.inj h).symm
  · intro row mappings merge_rules e he
    unfold normalize_row build_normalized nameErrorsOf emailErrorsOf at he
    simp only [] at he
    rw [List.mem_append] at he
    rcases he with he | he <;>
      (split at he <;> (try split at he) <;> simp_all)

/-- Witness for C5: a short phone is absent, a kept phone equals its
digit-and-plus filtering, and every error produced on a concrete bad row is
tagged full_name or email. -/
theorem normalize_phone_amended_witness :
    normalize_phone (Cell.str "12-345") = none ∧
    ("+12345678" : String) =
      ⟨(pyStrip (Cell.str "+12 345 678").pyStr).data.filter isPhoneKeptChar⟩ ∧
    ((⟨"email", "Invalid email format: a@b"⟩ : FieldError).field = "full_name" ∨
      (⟨"email", "Invalid email format: a@b"⟩ : FieldError).field = "email") := by
  refine ⟨?_, ?_, ?_⟩
  · exact (normalize_phone_amended.1 (Cell.str "12-345")).mpr (by decide)
  · exact normalize_phone_amended.2.1 (Cell.str "+12 345 678") "+12345678" (by decide)
  · exact normalize_phone_amended.2.2 [("email", Cell.str "a@b")]
      [("email", "email")] [] ⟨"email", "Invalid email format: a@b"⟩ (by decide)

/-- Sample column for the C9 boundary counterexample: five non-empty
values of which exactly four match the email regex. -/
def boundaryVals : List Cell :=
  [.str "a@b.cd", .str "b@c.de", .str "c@d.ef", .str "d@e.fg", .str "zz"]

/-- C9 counterexample: a column with no alias hit whose sample sits exactly
at the 80 percent email boundary (4 of 5) receives no suggestion at all —
the source compares with strictly-greater-than, so the boundary is
excluded, contradicting the claim that boundary columns are suggested. -/
theorem suggest_boundary_counterexample :
    emailMatchCount boundaryVals = 4 ∧ (sampleOf boundaryVals).length = 5 ∧
    alias_lookup [] (pyStrip (pyLower "contact")) = none ∧
    suggest_mappings [("contact", boundaryVals)] = [] := by
  refine ⟨by decide, by decide, by decide, by decide⟩

/-- C9 amended: for a surviving column with no alias hit, content sniffing
samples up to 100 non-empty values and suggests email exactly when strictly
more than 80 percent of the sample matches the email regex, else phone
exactly when strictly more than 70 percent matches the phone regex; a
column exactly at a boundary is not suggested. -/
theorem suggest_content_strict (used_fields : List String) (values : List Cell)
    (he : used_fields.contains "email" = false)
    (hp : used_fields.contains "phone" = false) :
    (suggest_content used_fields values = some "email" ↔
      0 < (sampleOf values).length ∧
        5 * emailMatchCount values > 4 * (sampleOf values).length) ∧
    (suggest_content used_fields values = some "phone" ↔
      0 < (sampleOf values).length ∧
        ¬(5 * emailMatchCount values > 4 * (sampleOf values).length) ∧
        10 * phoneMatchCount values > 7 * (sampleOf values).length) ∧
    (∀ col : String, alias_lookup [] (pyStrip (pyLower col)) = none →
      dGet (suggest_mappings [(col, values)]) col = suggest_content [] values) := by
  have he' : "email" ∉ used_fields := by simpa using he
  have hp' : "phone" ∉ used_fields := by simpa using hp
  refine ⟨?_, ?_, ?_⟩
  · unfold suggest_content
    by_cases h0 : (sampleOf values).length > 0
    · rw [if_pos h0]
      by_cases h1 : 5 * emailMatchCount values > 4 * (sampleOf values).length
      · rw [if_pos (by simp [he', h1])]
        simp [h0, h1]
      · rw [if_neg (by simp [he', h1])]
        by_cases h2 : 10 * phoneMatchCount values > 7 * (sampleOf values).length
        · rw [if_pos (by simp [hp', h2])]
          simp [h1]
        · rw [if_neg (by simp [hp', h2])]
          simp [h1]
    · rw [if_neg h0]
      simp [h0]
  · unfold suggest_content
    by_cases h0 : (sampleOf values).length > 0
    · rw [if_pos h0]
      by_cases h1 : 5 * emailMatchCount values > 4 * (sampleOf values).length
      · rw [if_pos (by simp [he', h1])]
        simp [h1]
      · rw [if_neg (by simp [he', h1])]
        by_cases h2 : 10 * phoneMatchCount values > 7 * (sampleOf values).length
        · rw [if_pos (by simp [hp', h2])]
          simp [h0, h1, h2]
        · rw [if_neg (by simp [hp', h2])]
          simp [h1, h2]
    · rw [if_neg h0]
      simp [h0]
  · intro col halias
    unfold suggest_mappings
    simp only [List.foldl_cons, List.foldl_nil, halias]
    rcases hsc : suggest_content [] values with _ | f
    · rfl
    · show dGet (dSet [] col f) col = some f
      unfold dSet dMem dGet
      simp

/-- Witness for C9: a fully matching sample is suggested as email, and the
single-column table routes the content suggestion through
suggest_mappings. -/
theorem suggest_content_strict_witness :
    suggest_content [] [Cell.str "a@b.cd", Cell.str "b@c.de"] = some "email" ∧
    dGet (suggest_mappings [("contact", boundaryVals)]) "contact" =
      suggest_content [] boundaryVals := by
  constructor
  · exact (suggest_content_strict [] [Cell.str "a@b.cd", Cell.str "b@c.de"]
      rfl rfl).1.mpr (by decide)
  · exact (suggest_content_strict [] boundaryVals rfl rfl).2.2 "contact" (by decide)

theorem mem_insertionSort {α : Type} (r : α → α → Prop) [DecidableRel r]
    {a : α} {l : List α} : a ∈ l.insertionSort r ↔ a ∈ l :=
  (List.perm_insertionSort r l).mem_iff

/-- C10: every template created through the template CRUD endpoint is
stored with a None column signature and is therefore never returned by
find_matching_templates for any signature string the analyzer can produce;
conversely everything find_matching_templates returns carries exactly the
queried signature, so only templates saved with a computed signature (the
submit-mapping flow) can be auto-suggested. -/
theorem crud_template_never_matched :
    (∀ (id user_id : Int) (td : TemplateCreate) (ts : List MappingTemplate)
      (sig : String),
      create_template_endpoint id user_id td ∉ find_matching_templates ts sig) ∧
    (∀ (ts : List MappingTemplate) (sig : String) (t : MappingTemplate),
      t ∈ find_matching_templates ts sig → t.column_signature = some sig) := by
  have hsig : ∀ ts sig (t : MappingTemplate), t ∈ find_matching_templates ts sig →
      t.column_signature = some sig := by
    intro ts sig t ht
    unfold find_matching_templates at ht
    rw [mem_insertionSort] at ht
    have := List.of_mem_filter ht
    simp only [Bool.and_eq_true, beq_iff_eq] at this
    exact this.1
  refine ⟨?_, hsig⟩
  intro id user_id td ts sig hmem
  have := hsig ts sig _ hmem
  simp [create_template_endpoint, TemplateManager.create_template] at this

/-- Concrete template carrying a signature, for the C10 witness. -/
def sigTemplate : MappingTemplate :=
  ⟨3, "t", none, 1, false, true, [("name", "full_name")], [], [], some "s1", 4⟩

/-- Witness for C10: a stored template with a real signature is returned
and its signature is the queried one, while a CRUD-created template is not
returned even when it is in the store. -/
theorem crud_template_never_matched_witness :
    sigTemplate.column_signature = some "s1" ∧
    create_template_endpoint 9 1 ⟨"c", none, [], [], [], false⟩ ∉
      find_matching_templates
        [sigTemplate, create_template_endpoint 9 1 ⟨"c", none, [], [], [], false⟩]
        "s1" := by
  constructor
  · exact crud_template_never_matched.2 [sigTemplate] "s1" sigTemplate (by decide)
  · exact crud_template_never_matched.1 9 1 ⟨"c", none, [], [], [], false⟩
      [sigTemplate, create_template_endpoint 9 1 ⟨"c", none, [], [], [], false⟩] "s1"

/-! ## End-to-end scenario: 10-row upload, shared email at rows 4 and 7,
row 2 matching an existing lead -/

/-- Existing lead store for the scenario: one lead whose email equals the
email of file row 2. -/
def scenarioDb : List Lead := [⟨1, "Ann Lee", "ann@x.com", none, .other, .new⟩]

/-- Parsed 10-row file with columns Name, Email, Phone: data rows carry
Excel-style numbers 2 through 11; rows 4 and 7 share an email, row 2
matches the existing lead, everything else is valid and distinct. -/
def scenarioRows : List (Dict Cell) :=
  [[("Name", .str "Ann Lee"), ("Email", .str "ann@x.com"), ("Phone", .str "111 222 333")],
   [("Name", .str "Bob One"), ("Email", .str "bob1@x.com"), ("Phone", .str "2223334444")],
   [("Name", .str "Cal Two"), ("Email", .str "dup@x.com"), ("Phone", .str "3334445555")],
   [("Name", .str "Dan Three"), ("Email", .str "dan@x.com"), ("Phone", .str "4445556666")],
   [("Name", .str "Eve Four"), ("Email", .str "eve@x.com"), ("Phone", .str "5556667777")],
   [("Name", .str "Fay Five"), ("Email", .str "dup@x.com"), ("Phone", .str "6667778888")],
   [("Name", .str "Gus Six"), ("Email", .str "gus@x.com"), ("Phone", .str "7778889999")],
   [("Name", .str "Hal Seven"), ("Email", .str "hal@x.com"), ("Phone", .str "8889990000")],
   [("Name", .str "Ivy Eight"), ("Email", .str "ivy@x.com"), ("Phone", .str "9990001111")],
   [("Name", .str "Jan Nine"), ("Email", .str "jan@x.com"), ("Phone", .str "1112223333")]]

/-- Session as created by the upload phase for this scenario (mapping
status, analysis outputs stored, 10 data rows). -/
def scenarioSession : ImportSession :=
  ⟨1, 1, .mapping, none, "leads.csv", ["name", "email", "phone"],
   [("name", "full_name"), ("email", "email"), ("phone", "phone")],
   [], [], [], 10, 0, [], [], [], [], [], [], none, [], []⟩

/-- Mapping submission confirming the suggested column mapping. -/
def scenarioSubmission : MappingSubmission :=
  ⟨[("name", "full_name"), ("email", "email"), ("phone", "phone")], [], [],
   false, none⟩

/-- Zero similarity stub for scenarios without fuzzy matching (no row has a
company, so the ratio is never consulted). -/
def ratioZero : String → String → ℚ := fun _ _ => 0

/-- Identity digest stub for scenarios (only digest equality matters). -/
def md5Id : String → String := fun s => s

/-- Session state after the mapping submission ran phases 3 and 4. -/
def scenarioReady : ImportSession :=
  match submit_mapping md5Id ratioZero scenarioDb [] 7 scenarioSession
    scenarioSubmission scenarioRows with
  | .ok s _ _ => s
  | _ => scenarioSession

/-- Mapping response of the scenario submission. -/
def scenarioMapResponse : MappingResponse :=
  match submit_mapping md5Id ratioZero scenarioDb [] 7 scenarioSession
    scenarioSubmission scenarioRows with
  | .ok _ _ resp => resp
  | _ => ⟨0, "", []⟩

/-- Healthy execution world for the scenario: ids continue at 2, nothing
raises. -/
def scenarioWorld : ExecWorld := ⟨scenarioDb, 2, fun _ => false, false⟩

/-- Duplicate decisions of the scenario: skip row 2, leave the in-file
cluster to default handling. -/
def scenarioDecisions : Dict Decision := [("2", .skip)]

/-- Completed session of the scenario execution. -/
def scenarioDone : ImportSession :=
  match execute_import scenarioWorld scenarioReady scenarioDecisions with
  | .ok s _ => s
  | _ => scenarioReady

/-- Execute response of the scenario execution. -/
def scenarioExecResponse : ExecuteImportResponse :=
  match execute_import scenarioWorld scenarioReady scenarioDecisions with
  | .ok _ resp => resp
  | _ => ⟨0, "", ⟨0, 0, 0, 0, 0⟩, [], []⟩

/-- C3 counterexample: in the specified 10-row scenario the pipeline does
report the single in-file cluster of rows 4 and 7 and the single existing
match at row 2, but execution with decisions skipping row 2 inserts 8 rows
(10 minus the 2 skipped), not the 7 the claim states — the claim total
does not add up (7 inserted + 2 skipped + 0 updated is only 9 of 10). -/
theorem end_to_end_inserted_counterexample :
    (scenarioReady.in_file_duplicates.map (·.rows)) = [[4, 7]] ∧
    (scenarioReady.existing_duplicates.map (·.import_row)) = [2] ∧
    scenarioExecResponse.summary.total_rows = 10 ∧
    scenarioExecResponse.summary.skipped = 2 ∧
    scenarioExecResponse.summary.updated = 0 ∧
    scenarioExecResponse.summary.inserted = 8 ∧
    ¬ scenarioExecResponse.summary.inserted = 7 := by
  refine ⟨by decide, by decide, by decide, by decide, by decide, by decide, by decide⟩

/-- C3 amended: the scenario behaves as claimed except that execute yields
inserted 8 (10 rows minus the in-file skip of row 7 and the decided skip of
row 2), with skipped 2, updated 0, errors 0, total_rows 10, and the
session ends completed. -/
theorem end_to_end_scenario_amended :
    submit_mapping md5Id ratioZero scenarioDb [] 7 scenarioSession
      scenarioSubmission scenarioRows = .ok scenarioReady [] scenarioMapResponse ∧
    scenarioReady.status = .ready ∧
    scenarioReady.valid_rows = 10 ∧
    (scenarioReady.in_file_duplicates.map (·.rows)) = [[4, 7]] ∧
    (scenarioReady.existing_duplicates.map (·.import_row)) = [2] ∧
    scenarioReady.smart_matches = [] ∧
    execute_import scenarioWorld scenarioReady scenarioDecisions =
      .ok scenarioDone scenarioExecResponse ∧
    scenarioExecResponse.summary = ⟨10, 8, 0, 2, 0⟩ ∧
    scenarioDone.status = .completed := by
  refine ⟨by decide, by decide, by decide, by decide, by decide, by decide,
    by decide, by decide, by decide⟩

/-- Execution world in which the final completing commit raises. -/
def scenarioFailWorld : ExecWorld := ⟨scenarioDb, 2, fun _ => false, true⟩

/-- Session state carried out of the escaped exception. -/
def scenarioRaised : ImportSession :=
  match execute_import scenarioFailWorld scenarioReady scenarioDecisions with
  | .raised s => s
  | _ => scenarioReady

/-- C1 (code-bug evidence): on a Ready session, when the final completing
commit raises, execute_import lets the exception escape and the session is
left in the non-terminal ready status — it is neither Completed nor Failed
and no error message is retained, because the endpoint has no handler and
fail_session is never called anywhere in the code base. -/
theorem execute_commit_failure_leaves_ready :
    scenarioReady.status = .ready ∧
    execute_import scenarioFailWorld scenarioReady scenarioDecisions =
      .raised scenarioRaised ∧
    scenarioRaised.status = .ready ∧
    ¬ scenarioRaised.status = .completed ∧
    ¬ scenarioRaised.status = .failed ∧
    scenarioRaised.error_message = none := by
  refine ⟨by decide, by decide, by decide, by decide, by decide, by decide⟩

/-- C4: the session state machine only moves forward through the phase
endpoints — submit_mapping answers the invalid-phase client error for every
session whose status is not mapping (leaving the session untouched) and on
success moves mapping to ready; execute_import answers the invalid-phase
error for every session whose status is not ready (leaving the session
untouched) and on success moves ready to completed.  In particular a
session in completed or failed status is never mutated by either phase
operation. -/
theorem phase_guards :
    (∀ (md5 : String → String) (ratio : String → String → ℚ) (db : List Lead)
      (templates : List MappingTemplate) (template_id : Int)
      (s : ImportSession) (sub : MappingSubmission)
      (parsed_file : List (Dict Cell)),
      s.status ≠ .mapping →
      submit_mapping md5 ratio db templates template_id s sub parsed_file =
        .invalid_phase s
          ("Session is in '" ++ s.status.value ++ "' status, expected 'mapping'")) ∧
    (∀ (w : ExecWorld) (s : ImportSession) (request : Dict Decision),
      s.status ≠ .ready →
      execute_import w s request =
        .invalid_phase s
          ("Session is in '" ++ s.status.value ++ "' status, expected 'ready'")) ∧
    (∀ md5 ratio db templates template_id (s : ImportSession) sub parsed_file
      s' t' r',
      submit_mapping md5 ratio db templates template_id s sub parsed_file =
        .ok s' t' r' → s.status = .mapping ∧ s'.status = .ready) ∧
    (∀ (w : ExecWorld) (s : ImportSession) request s' r',
      execute_import w s request = .ok s' r' →
      s.status = .ready ∧ s'.status = .completed) := by
  refine ⟨?_, ?_, ?_, ?_⟩
  · intro md5 ratio db templates template_id s sub parsed_file h
    unfold submit_mapping
    rw [if_pos h]
  · intro w s request h
    unfold execute_import
    rw [if_pos h]
  · intro md5 ratio db templates template_id s sub parsed_file s' t' r' h
    unfold submit_mapping at h
    split at h
    · simp at h
    · next hst =>
      refine ⟨not_not.mp hst, ?_⟩
      simp only [SubmitOutcome.ok.injEq] at h
      rw [← h.1]
      rfl
  · intro w s request s' r' h
    unfold execute_import at h
    split at h
    · simp at h
    · next hst =>
      refine ⟨not_not.mp hst, ?_⟩
      simp only [] at h
      split at h
      · simp at h
      · simp only [ExecOutcome.ok.injEq] at h
        rw [← h.1]
        rfl

/-- Terminal session for the C4 witness. -/
def doneSession : ImportSession := { scenarioSession with status := .completed }

/-- Witness for C4: a completed session is rejected by both phase
operations with the exact invalid-phase detail, and the scenario run moves
mapping to ready to completed. -/
theorem phase_guards_witness :
    submit_mapping md5Id ratioZero [] [] 0 doneSession scenarioSubmission [] =
      .invalid_phase doneSession
        "Session is in 'completed' status, expected 'mapping'" ∧
    execute_import scenarioWorld doneSession [] =
      .invalid_phase doneSession
        "Session is in 'completed' status, expected 'ready'" ∧
    (scenarioSession.status = .mapping ∧ scenarioReady.status = .ready) ∧
    (scenarioReady.status = .ready ∧ scenarioDone.status = .completed) := by
  refine ⟨?_, ?_, ?_, ?_⟩
  · exact phase_guards.1 md5Id ratioZero [] [] 0 doneSession scenarioSubmission []
      (by decide)
  · exact phase_guards.2.1 scenarioWorld doneSession [] (by decide)
  · exact phase_guards.2.2.1 md5Id ratioZero scenarioDb [] 7 scenarioSession
      scenarioSubmission scenarioRows scenarioReady [] scenarioMapResponse
      (by decide)
  · exact phase_guards.2.2.2 scenarioWorld scenarioReady scenarioDecisions
      scenarioDone scenarioExecResponse (by decide)

/-! ## C2: ordering and exclusion between the three dedup passes -/

/-- Valid rows for the C2 counterexample: two rows sharing an email that
also belongs to an existing lead. -/
def overlapData : List (Dict Cell) :=
  [[("full_name", .str "Bob A"), ("email", .str "b@x.com"),
    ("source", .source .other), ("_row_num", .int 2)],
   [("full_name", .str "Bob B"), ("email", .str "b@x.com"),
    ("source", .source .other), ("_row_num", .int 3)]]

/-- Lead store for the C2 counterexample. -/
def overlapDb : List Lead := [⟨5, "Bob Lead", "b@x.com", none, .other, .new⟩]

/-- C2 counterexample: rows 2 and 3 form an in-file duplicate cluster
(pass 1) and both are also reported as existing-lead exact matches
(pass 2) — pass 2 does not exclude rows claimed by pass 1, contradicting
the claim that each pass excludes rows claimed by an earlier pass. -/
theorem dedup_pass_overlap_counterexample :
    ((detect_all_duplicates ratioZero overlapDb overlapData).in_file_duplicates.map
        (·.rows)) = [[2, 3]] ∧
    ((detect_all_duplicates ratioZero overlapDb overlapData).existing_duplicates.map
        (·.import_row)) = [2, 3] ∧
    (2 : Int) ∈ (((detect_all_duplicates ratioZero overlapDb
        overlapData).in_file_duplicates.map (·.rows)).flatten) ∧
    (2 : Int) ∈ ((detect_all_duplicates ratioZero overlapDb
        overlapData).existing_duplicates.map (·.import_row)) := by
  refine ⟨by decide, by decide, by decide, by decide⟩

theorem exists_of_findSome {α β : Type} {f : α → Option β} {l : List α} {b : β}
    (h : l.findSome? f = some b) : ∃ a ∈ l, f a = some b := by
  induction l with
  | nil => simp [List.findSome?] at h
  | cons x xs ih =>
    rw [List.findSome?_cons] at h
    cases hfx : f x with
    | some y =>
      rw [hfx] at h
      refine ⟨x, by simp, ?_⟩
      rw [hfx]
      exact h
    | none =>
      rw [hfx] at h
      obtain ⟨a, ha, hfa⟩ := ih h
      exact ⟨a, by simp [ha], hfa⟩

theorem smart_match_for_import_row {ratio : String → String → ℚ}
    {all_leads : List Lead} {row : Dict Cell} {m : SmartMatch}
    (h : smart_match_for ratio all_leads row = some m) :
    m.import_row = row_num_of row := by
  unfold smart_match_for at h
  obtain ⟨lead, _, hf⟩ := exists_of_findSome h
  simp only [] at hf
  split at hf
  · cases hf
    rfl
  · simp at hf

/-- C2 amended: pass 3 (smart matching) excludes exactly the rows claimed
by pass 2 (existing-lead exact matches): no smart match carries the row
number of an existing-lead match.  Passes 1 and 2 do not exclude each
other's rows, and pass 3 does not exclude rows claimed only by pass 1. -/
theorem smart_matches_exclude_existing (ratio : String → String → ℚ)
    (db : List Lead) (data : List (Dict Cell)) (m : SmartMatch) (d : ExistingDup)
    (hm : m ∈ (detect_all_duplicates ratio db data).smart_matches)
    (hd : d ∈ (detect_all_duplicates ratio db data).existing_duplicates) :
    m.import_row ≠ d.import_row := by
  have hsm : (detect_all_duplicates ratio db data).smart_matches =
      find_smart_matches ratio db data (find_existing_duplicates db data) := rfl
  have hex : (detect_all_duplicates ratio db data).existing_duplicates =
      find_existing_duplicates db data := rfl
  rw [hsm] at hm
  rw [hex] at hd
  unfold find_smart_matches at hm
  have hm' : m ∈ (if (smart_pool data (find_existing_duplicates db data)).isEmpty = true
      then ([] : List SmartMatch)
      else List.filterMap (smart_match_for ratio (List.take 1000 db))
        (smart_pool data (find_existing_duplicates db data))) := hm
  clear hm
  split at hm'
  · simp at hm'
  · rw [List.mem_filterMap] at hm'
    obtain ⟨row, hrow, hf⟩ := hm'
    have himp := smart_match_for_import_row hf
    unfold smart_pool at hrow
    simp only [] at hrow
    have hpred := List.of_mem_filter hrow
    simp only [Bool.and_eq_true, Bool.not_eq_true'] at hpred
    rw [himp]
    intro hcontra
    have hmemmap : row_num_of row ∈
        (find_existing_duplicates db data).map (·.import_row) := by
      rw [hcontra]
      exact List.mem_map_of_mem _ hd
    have htrue : ((find_existing_duplicates db data).map
        (·.import_row)).contains (row_num_of row) = true := by
      exact List.elem_eq_true_of_mem hmemmap
    rw [hpred.2] at htrue
    exact Bool.false_ne_true htrue

/-- Existing lead for the C2 witness scenario. -/
def smartLead : Lead := ⟨21, "John Smith", "z@y.com", none, .other, .new⟩

/-- Row with a company whose name matches the stored lead (row 2). -/
def smartRowA : Dict Cell :=
  [("full_name", .str "John Smith"), ("email", .str "j@x.com"),
   ("company", .str "Acme"), ("source", .source .other), ("_row_num", .int 2)]

/-- Row matched exactly by email against the stored lead (row 3). -/
def smartRowB : Dict Cell :=
  [("full_name", .str "Zed Zed"), ("email", .str "z@y.com"),
   ("source", .source .other), ("_row_num", .int 3)]

/-- Data of the C2 witness scenario. -/
def smartData : List (Dict Cell) := [smartRowA, smartRowB]

/-- Similarity stub returning exactly the threshold. -/
def ratioThreshold : String → String → ℚ := fun _ _ => NAME_SIMILARITY_THRESHOLD

/-- Existing-lead match of the witness scenario. -/
def smartDupB : ExistingDup :=
  ⟨3, .str "Zed Zed", .str "z@y.com", .pynone, 21, smartLead, "email",
    .str "z@y.com"⟩

/-- Smart match of the witness scenario. -/
def smartMatchA : SmartMatch :=
  ⟨2, .str "John Smith", .str "j@x.com", .pynone, 21, smartLead, "smart",
    pyRound1 (NAME_SIMILARITY_THRESHOLD * 100),
    "Similar name (" ++ toString (pyRound0 (NAME_SIMILARITY_THRESHOLD * 100)) ++
      "% match)"⟩

theorem smart_scenario_existing :
    (detect_all_duplicates ratioThreshold [smartLead] smartData).existing_duplicates =
      [smartDupB] := by
  decide

theorem smart_scenario_smart :
    (detect_all_duplicates ratioThreshold [smartLead] smartData).smart_matches =
      [smartMatchA] := by
  have h1 : (detect_all_duplicates ratioThreshold [smartLead] smartData).smart_matches =
      find_smart_matches ratioThreshold [smartLead] smartData
        (find_existing_duplicates [smartLead] smartData) := rfl
  have h2 : find_existing_duplicates [smartLead] smartData = [smartDupB] := by decide
  rw [h1, h2]
  unfold find_smart_matches
  rw [show smart_pool smartData [smartDupB] = [smartRowA] from by decide]
  rw [if_neg (by decide)]
  rw [show List.take 1000 [smartLead] = [smartLead] from by decide]
  rw [List.filterMap_cons]
  have hsmf : smart_match_for ratioThreshold [smartLead] smartRowA = some smartMatchA := by
    unfold smart_match_for
    rw [List.findSome?_cons]
    have hname : name_similarity ratioThreshold (smartNameOf smartRowA)
        smartLead.full_name = NAME_SIMILARITY_THRESHOLD := by
      unfold name_similarity
      rw [if_neg (by decide)]
      rfl
    simp only [hname]
    rw [if_pos le_rfl]
    rfl
  rw [hsmf]
  rfl

/-- Witness for C2: in a concrete scenario with one exact match (row 3)
and one smart match (row 2), the amended exclusion gives their row numbers
apart. -/
theorem smart_matches_exclude_existing_witness :
    smartMatchA.import_row = 2 ∧ smartDupB.import_row = 3 ∧
    smartMatchA.import_row ≠ smartDupB.import_row := by
  refine ⟨rfl, rfl, ?_⟩
  exact smart_matches_exclude_existing ratioThreshold [smartLead] smartData
    smartMatchA smartDupB
    (by rw [smart_scenario_smart]; simp)
    (by rw [smart_scenario_existing]; simp)

/-! ## C8: email validation errors -/

theorem dMem_eq_isSome {β : Type} (d : Dict β) (k : String) :
    dMem d k = (dGet d k).isSome := by
  unfold dMem dGet
  cases d.find? (fun p => p.1 == k) <;> rfl

theorem normalize_email_required {v : Cell}
    (hv : v.isna = true ∨ (pyStrip v.pyStr).data = []) :
    normalize_email v = (none, some "Email is required") := by
  unfold normalize_email
  rcases hv with hv | hv
  · rw [if_pos (by simp [hv])]
  · rw [if_pos (by simp [List.isEmpty_iff.mpr hv])]

theorem normalize_email_invalid {v : Cell} (h1 : v.isna = false)
    (h2 : (pyStrip v.pyStr).data ≠ []) (h3 : emailMatches (cleanEmail v.pyStr) = false) :
    normalize_email v =
      (none, some ("Invalid email format: " ++ cleanEmail v.pyStr)) := by
  unfold normalize_email
  rw [if_neg (by simp [h1, List.isEmpty_iff, h2])]
  simp only []
  rw [if_neg (by simp [h3])]

theorem normalize_data_go_invalid (mappings : Dict String)
    (merge_rules : List MergeRule) (data : List (Dict Cell)) :
    ∀ (idx : Int) (i : Nat) (row : Dict Cell), data.get? i = some row →
      (normalize_row row mappings merge_rules).2 ≠ [] →
      ∃ inv ∈ (normalize_data_go mappings merge_rules idx data).2,
        inv.row = idx + i + 2 ∧
          inv.errors = (normalize_row row mappings merge_rules).2 := by
  induction data with
  | nil => intro idx i row h; simp at h
  | cons r rest ih =>
    intro idx i row h herr
    rcases i with _ | i
    · simp only [List.get?_cons_zero, Option.some.injEq] at h
      rw [h]
      unfold normalize_data_go
      rcases hnr : normalize_row row mappings merge_rules with ⟨nr, errs⟩
      rw [hnr] at herr
      simp only at herr
      rcases hgo : normalize_data_go mappings merge_rules (idx + 1) rest
        with ⟨vs, invs⟩
      simp only [hnr, hgo]
      rw [if_pos (by simpa [List.isEmpty_iff] using herr)]
      exact ⟨⟨idx + 2, row, nr, errs⟩, by simp, by simp, rfl⟩
    · have h' : rest.get? i = some row := by simpa using h
      obtain ⟨inv, hmem, hrow, herrs⟩ := ih (idx + 1) i row h' herr
      refine ⟨inv, ?_, by rw [hrow]; push_cast; ring, herrs⟩
      unfold normalize_data_go
      rcases hnr : normalize_row r mappings merge_rules with ⟨nr, errs⟩
      rcases hgo : normalize_data_go mappings merge_rules (idx + 1) rest
        with ⟨vs, invs⟩
      rw [hgo] at hmem
      simp only [hnr, hgo]
      by_cases hc : errs.isEmpty
      · rw [if_neg (by simp [hc])]
        exact hmem
      · rw [if_pos (by simp [hc])]
        exact List.mem_cons_of_mem _ hmem

/-- C8: a row whose mapped fields contain no email key, or an email that is
missing or blank, always yields a validation error tagged email with the
message Email is required; a row whose cleaned email fails the validation
pattern yields a validation error tagged email carrying the offending
(cleaned) value; and every row with a nonempty error list is classified
invalid by normalize_data, keeping its row number and errors. -/
theorem email_validation_errors :
    (∀ (row : Dict Cell) (mappings : Dict String) (merge_rules : List MergeRule),
      dMem (mapped_row_of row mappings merge_rules) "email" = false →
      (⟨"email", "Email is required"⟩ : FieldError) ∈
        (normalize_row row mappings merge_rules).2) ∧
    (∀ (row : Dict Cell) (mappings : Dict String) (merge_rules : List MergeRule)
      (v : Cell),
      dGet (mapped_row_of row mappings merge_rules) "email" = some v →
      (v.isna = true ∨ (pyStrip v.pyStr).data = []) →
      (⟨"email", "Email is required"⟩ : FieldError) ∈
        (normalize_row row mappings merge_rules).2) ∧
    (∀ (row : Dict Cell) (mappings : Dict String) (merge_rules : List MergeRule)
      (v : Cell),
      dGet (mapped_row_of row mappings merge_rules) "email" = some v →
      v.isna = false → (pyStrip v.pyStr).data ≠ [] →
      emailMatches (cleanEmail v.pyStr) = false →
      (⟨"email", "Invalid email format: " ++ cleanEmail v.pyStr⟩ : FieldError) ∈
        (normalize_row row mappings merge_rules).2) ∧
    (∀ (data : List (Dict Cell)) (mappings : Dict String)
      (merge_rules : List MergeRule) (i : Nat) (row : Dict Cell),
      data.get? i = some row →
      (normalize_row row mappings merge_rules).2 ≠ [] →
      ∃ inv ∈ (normalize_data data mappings merge_rules).2,
        inv.row = (i : Int) + 2 ∧
          inv.errors = (normalize_row row mappings merge_rules).2) := by
  refine ⟨?_, ?_, ?_, ?_⟩
  · intro row mappings merge_rules h
    unfold normalize_row build_normalized emailErrorsOf emailResOf
    simp [h]
  · intro row mappings merge_rules v hget hv
    have hmem : dMem (mapped_row_of row mappings merge_rules) "email" = true := by
      rw [dMem_eq_isSome, hget]
      rfl
    unfold normalize_row build_normalized emailErrorsOf emailResOf
    simp [hmem, hget, normalize_email_required hv]
  · intro row mappings merge_rules v hget h1 h2 h3
    have hmem : dMem (mapped_row_of row mappings merge_rules) "email" = true := by
      rw [dMem_eq_isSome, hget]
      rfl
    unfold normalize_row build_normalized emailErrorsOf emailResOf
    simp [hmem, hget, normalize_email_invalid h1 h2 h3]
  · intro data mappings merge_rules i row h herr
    obtain ⟨inv, hmem, hrow, herrs⟩ :=
      normalize_data_go_invalid mappings merge_rules data 0 i row h herr
    exact ⟨inv, hmem, by rw [hrow]; ring, herrs⟩

/-- Witness for C8: a row with no email column, a row with a NaN email, a
row with the malformed email a at b, and the classification of the last one
as invalid at row number 2. -/
theorem email_validation_errors_witness :
    ((⟨"email", "Email is required"⟩ : FieldError) ∈
      (normalize_row [("x", Cell.str "hi")] [("x", "notes")] []).2) ∧
    ((⟨"email", "Email is required"⟩ : FieldError) ∈
      (normalize_row [("email", Cell.nan), ("name", Cell.str "A")]
        [("email", "email"), ("name", "full_name")] []).2) ∧
    ((⟨"email", "Invalid email format: a@b"⟩ : FieldError) ∈
      (normalize_row [("email", Cell.str "a@b"), ("name", Cell.str "A")]
        [("email", "email"), ("name", "full_name")] []).2) ∧
    (normalize_data [[("email", Cell.str "a@b"), ("name", Cell.str "A")]]
        [("email", "email"), ("name", "full_name")] []).2 ≠ [] := by
  refine ⟨?_, ?_, ?_, ?_⟩
  · exact email_validation_errors.1 [("x", Cell.str "hi")] [("x", "notes")] []
      (by decide)
  · exact email_validation_errors.2.1 [("email", Cell.nan), ("name", Cell.str "A")]
      [("email", "email"), ("name", "full_name")] [] Cell.nan (by decide)
      (Or.inl rfl)
  · have h := email_validation_errors.2.2.1
      [("email", Cell.str "a@b"), ("name", Cell.str "A")]
      [("email", "email"), ("name", "full_name")] [] (Cell.str "a@b")
      (by decide) rfl (by decide) (by decide)
    simpa using h
  · obtain ⟨inv, hmem, -, -⟩ := email_validation_errors.2.2.2
      [[("email", Cell.str "a@b"), ("name", Cell.str "A")]]
      [("email", "email"), ("name", "full_name")] [] 0
      [("email", Cell.str "a@b"), ("name", Cell.str "A")] rfl (by decide)
    exact List.ne_nil_of_mem hmem

/-! ## C6: round-trip behaviour of the normalizer -/

theorem dGet_append {β : Type} (d1 d2 : Dict β) (k : String) :
    dGet (d1 ++ d2) k =
      match dGet d1 k with
      | some v => some v
      | none => dGet d2 k := by
  unfold dGet
  induction d1 with
  | nil => simp
  | cons p rest ih =>
    by_cases hp : (p.1 == k) = true
    · simp [List.find?_cons, hp]
    · simp only [List.cons_append, List.find?_cons, hp]
      simpa using ih

/-- Identity mapping over the canonical CRM fields, as used by the
round-trip reading of the specification. -/
def identity_mapping : Dict String :=
  [("full_name", "full_name"), ("email", "email"), ("phone", "phone"),
   ("company", "company"), ("source", "source"), ("notes", "notes")]

theorem dGet_fullPartOf_ne (M : Dict Cell) (k : String)
    (h : ("full_name" == k) = false) : dGet (fullPartOf M) k = none := by
  unfold fullPartOf
  split <;> simp [dGet, h]

theorem dGet_emailPartOf_ne (M : Dict Cell) (k : String)
    (h : ("email" == k) = false) : dGet (emailPartOf M) k = none := by
  unfold emailPartOf
  split
  · split <;> simp [dGet, h]
  · simp [dGet]

theorem dGet_phonePartOf_ne (M : Dict Cell) (k : String)
    (h : ("phone" == k) = false) : dGet (phonePartOf M) k = none := by
  unfold phonePartOf
  split <;> simp [dGet, h]

theorem dGet_companyPartOf_ne (M : Dict Cell) (k : String)
    (h : ("company" == k) = false) : dGet (companyPartOf M) k = none := by
  unfold companyPartOf
  split <;> simp [dGet, h]

theorem dGet_sourcePartOf_ne (M : Dict Cell) (k : String)
    (h : ("source" == k) = false) : dGet (sourcePartOf M) k = none := by
  unfold sourcePartOf
  split <;> simp [dGet, h]

theorem dGet_notesPartOf_ne (M : Dict Cell) (k : String)
    (h : ("notes" == k) = false) : dGet (notesPartOf M) k = none := by
  unfold notesPartOf
  split <;> simp [dGet, h]

theorem dGet_build_full_name (M : Dict Cell) :
    dGet (build_normalized M).1 "full_name" = (fullNameValOf M).map optCell := by
  have hrest : dGet (emailPartOf M ++ (phonePartOf M ++ (companyPartOf M ++
      (sourcePartOf M ++ notesPartOf M)))) "full_name" = none := by
    rw [dGet_append, dGet_emailPartOf_ne M _ (by decide),
      dGet_append, dGet_phonePartOf_ne M _ (by decide),
      dGet_append, dGet_companyPartOf_ne M _ (by decide),
      dGet_append, dGet_sourcePartOf_ne M _ (by decide),
      dGet_notesPartOf_ne M _ (by decide)]
  unfold build_normalized
  simp only [List.append_assoc]
  rw [dGet_append]
  unfold fullPartOf
  rcases hfv : fullNameValOf M with _ | v
  · simpa [dGet] using hrest
  · simp [dGet]

theorem dGet_build_email (M : Dict Cell) :
    dGet (build_normalized M).1 "email" =
      match emailResOf M with
      | some (some e, _) => if !e.data.isEmpty then some (.str e) else none
      | _ => none := by
  have hrest : dGet (phonePartOf M ++ (companyPartOf M ++ (sourcePartOf M ++
      notesPartOf M))) "email" = none := by
    rw [dGet_append, dGet_phonePartOf_ne M _ (by decide),
      dGet_append, dGet_companyPartOf_ne M _ (by decide),
      dGet_append, dGet_sourcePartOf_ne M _ (by decide),
      dGet_notesPartOf_ne M _ (by decide)]
  unfold build_normalized
  simp only [List.append_assoc]
  rw [dGet_append, dGet_fullPartOf_ne M _ (by decide), dGet_append]
  unfold emailPartOf
  rcases hem : emailResOf M with _ | ⟨oe, err⟩
  · simpa [dGet] using hrest
  · rcases oe with _ | e
    · simpa [dGet] using hrest
    · by_cases hc : e.data.isEmpty
      · simp only [hc, Bool.not_true, Bool.false_eq_true, if_false]
        simpa [dGet] using hrest
      · simp only [hc, Bool.not_false, Bool.false_eq_true, if_true]
        simp [dGet]

theorem dGet_build_phone (M : Dict Cell) :
    dGet (build_normalized M).1 "phone" =
      if dMem M "phone" then
        some (optCell (normalize_phone ((dGet M "phone").getD .pynone)))
      else none := by
  have hrest : dGet (companyPartOf M ++ (sourcePartOf M ++ notesPartOf M))
      "phone" = none := by
    rw [dGet_append, dGet_companyPartOf_ne M _ (by decide),
      dGet_append, dGet_sourcePartOf_ne M _ (by decide),
      dGet_notesPartOf_ne M _ (by decide)]
  unfold build_normalized
  simp only [List.append_assoc]
  rw [dGet_append, dGet_fullPartOf_ne M _ (by decide), dGet_append,
    dGet_emailPartOf_ne M _ (by decide), dGet_append]
  unfold phonePartOf
  by_cases hp : dMem M "phone" = true
  · simp only [hp, if_true]
    simp [dGet]
  · rw [Bool.not_eq_true] at hp
    simp only [hp, Bool.false_eq_true, if_false]
    simpa [dGet] using hrest

theorem dGet_build_company (M : Dict Cell) :
    dGet (build_normalized M).1 "company" =
      if dMem M "company" then
        some (optCell (normalize_text ((dGet M "company").getD .pynone)))
      else none := by
  have hrest : dGet (sourcePartOf M ++ notesPartOf M) "company" = none := by
    rw [dGet_append, dGet_sourcePartOf_ne M _ (by decide),
      dGet_notesPartOf_ne M _ (by decide)]
  unfold build_normalized
  simp only [List.append_assoc]
  rw [dGet_append, dGet_fullPartOf_ne M _ (by decide), dGet_append,
    dGet_emailPartOf_ne M _ (by decide), dGet_append,
    dGet_phonePartOf_ne M _ (by decide), dGet_append]
  unfold companyPartOf
  by_cases hp : dMem M "company" = true
  · simp only [hp, if_true]
    simp [dGet]
  · rw [Bool.not_eq_true] at hp
    simp only [hp, Bool.false_eq_true, if_false]
    simpa [dGet] using hrest

theorem dGet_build_source (M : Dict Cell) :
    dGet (build_normalized M).1 "source" =
      some (.source (if dMem M "source" then
        normalize_source ((dGet M "source").getD .pynone) else .other)) := by
  unfold build_normalized
  simp only [List.append_assoc]
  rw [dGet_append, dGet_fullPartOf_ne M _ (by decide), dGet_append,
    dGet_emailPartOf_ne M _ (by decide), dGet_append,
    dGet_phonePartOf_ne M _ (by decide), dGet_append,
    dGet_companyPartOf_ne M _ (by decide), dGet_append]
  unfold sourcePartOf
  by_cases hp : dMem M "source" = true
  · simp only [hp, if_true]
    simp [dGet]
  · rw [Bool.not_eq_true] at hp
    simp only [hp, Bool.false_eq_true, if_false]
    simp [dGet]

theorem dGet_build_notes (M : Dict Cell) :
    dGet (build_normalized M).1 "notes" =
      if dMem M "notes" then
        some (optCell (normalize_text ((dGet M "notes").getD .pynone)))
      else none := by
  unfold build_normalized
  simp only [List.append_assoc]
  rw [dGet_append, dGet_fullPartOf_ne M _ (by decide), dGet_append,
    dGet_emailPartOf_ne M _ (by decide), dGet_append,
    dGet_phonePartOf_ne M _ (by decide), dGet_append,
    dGet_companyPartOf_ne M _ (by decide), dGet_append,
    dGet_sourcePartOf_ne M _ (by decide)]
  unfold notesPartOf
  by_cases hp : dMem M "notes" = true
  · simp only [hp, if_true]
    simp [dGet]
  · rw [Bool.not_eq_true] at hp
    simp only [hp, Bool.false_eq_true, if_false]
    simp [dGet]

theorem dGet_build_first_name (M : Dict Cell) :
    dGet (build_normalized M).1 "first_name" = none := by
  unfold build_normalized
  simp only [List.append_assoc]
  rw [dGet_append, dGet_fullPartOf_ne M _ (by decide), dGet_append,
    dGet_emailPartOf_ne M _ (by decide), dGet_append,
    dGet_phonePartOf_ne M _ (by decide), dGet_append,
    dGet_companyPartOf_ne M _ (by decide), dGet_append,
    dGet_sourcePartOf_ne M _ (by decide),
    dGet_notesPartOf_ne M _ (by decide)]

theorem dGet_build_last_name (M : Dict Cell) :
    dGet (build_normalized M).1 "last_name" = none := by
  unfold build_normalized
  simp only [List.append_assoc]
  rw [dGet_append, dGet_fullPartOf_ne M _ (by decide), dGet_append,
    dGet_emailPartOf_ne M _ (by decide), dGet_append,
    dGet_phonePartOf_ne M _ (by decide), dGet_append,
    dGet_companyPartOf_ne M _ (by decide), dGet_append,
    dGet_sourcePartOf_ne M _ (by decide),
    dGet_notesPartOf_ne M _ (by decide)]

theorem dMem_append {β : Type} (d1 d2 : Dict β) (k : String) :
    dMem (d1 ++ d2) k = (dMem d1 k || dMem d2 k) := by
  simp only [dMem_eq_isSome, dGet_append]
  cases dGet d1 k <;> simp

theorem fullPartOf_keys (M : Dict Cell) :
    List.Sublist ((fullPartOf M).map Prod.fst) ["full_name"] := by
  unfold fullPartOf
  split <;> simp

theorem emailPartOf_keys (M : Dict Cell) :
    List.Sublist ((emailPartOf M).map Prod.fst) ["email"] := by
  unfold emailPartOf
  split
  · split <;> simp
  · simp

theorem phonePartOf_keys (M : Dict Cell) :
    List.Sublist ((phonePartOf M).map Prod.fst) ["phone"] := by
  unfold phonePartOf
  split <;> simp

theorem companyPartOf_keys (M : Dict Cell) :
    List.Sublist ((companyPartOf M).map Prod.fst) ["company"] := by
  unfold companyPartOf
  split <;> simp

theorem sourcePartOf_keys (M : Dict Cell) :
    List.Sublist ((sourcePartOf M).map Prod.fst) ["source"] := by
  unfold sourcePartOf
  split <;> simp

theorem notesPartOf_keys (M : Dict Cell) :
    List.Sublist ((notesPartOf M).map Prod.fst) ["notes"] := by
  unfold notesPartOf
  split <;> simp

theorem build_keys_sub (M : Dict Cell) :
    List.Sublist ((build_normalized M).1.map Prod.fst)
      ["full_name", "email", "phone", "company", "source", "notes"] := by
  unfold build_normalized
  simp only [List.map_append]
  exact (((((fullPartOf_keys M).append (emailPartOf_keys M)).append
    (phonePartOf_keys M)).append (companyPartOf_keys M)).append
    (sourcePartOf_keys M)).append (notesPartOf_keys M)

theorem build_keys_nodup (M : Dict Cell) :
    ((build_normalized M).1.map Prod.fst).Nodup :=
  List.Nodup.sublist (build_keys_sub M) (by decide)

theorem dGet_identity {k : String}
    (hk : k ∈ ["full_name", "email", "phone", "company", "source", "notes"]) :
    dGet identity_mapping k = some k := by
  simp only [List.mem_cons, List.not_mem_nil, or_false] at hk
  rcases hk with rfl | rfl | rfl | rfl | rfl | rfl <;> decide

theorem map_columns_go_id (mappings : Dict String) :
    ∀ (row acc : Dict Cell),
      (∀ p ∈ row, dGet mappings p.1 = some p.1) →
      (∀ p ∈ row, dMem acc p.1 = false) →
      (row.map Prod.fst).Nodup →
      row.foldl
        (fun acc p =>
          match dGet mappings p.1 with
          | some crm_field => dSet acc crm_field p.2
          | none => acc)
        acc = acc ++ row := by
  intro row
  induction row with
  | nil => intro acc _ _ _; simp
  | cons q rest ih =>
    intro acc hmap hmem hnd
    simp only [List.map_cons, List.nodup_cons] at hnd
    rw [List.foldl_cons, hmap q (by simp)]
    have hstep : dSet acc q.1 q.2 = acc ++ [q] := by
      unfold dSet
      rw [hmem q (by simp)]
      simp
    have hred : (match some q.1 with
      | some crm_field => dSet acc crm_field q.2
      | none => acc) = dSet acc q.1 q.2 := rfl
    rw [hred, hstep]
    rw [ih (acc ++ [q])
      (fun p hp => hmap p (by simp [hp]))
      (fun p hp => by
        rw [dMem_append, hmem p (by simp [hp])]
        have hne : (q.1 == p.1) = false := by
          rw [beq_eq_false_iff_ne]
          intro he
          exact hnd.1 (he ▸ List.mem_map_of_mem Prod.fst hp)
        simp [dMem, List.find?, hne])
      hnd.2]
    simp

theorem map_columns_build_id (M : Dict Cell) :
    map_columns (build_normalized M).1 identity_mapping = (build_normalized M).1 := by
  unfold map_columns
  have h := map_columns_go_id identity_mapping (build_normalized M).1 []
    (fun p hp => dGet_identity ((build_keys_sub M).subset (List.mem_map_of_mem Prod.fst hp)))
    (fun p _ => rfl)
    (build_keys_nodup M)
  simpa using h

theorem isSpaceChar_toNat {c : Char} (h : isSpaceChar c = true) :
    c.toNat = 32 ∨ c.toNat = 9 ∨ c.toNat = 10 ∨ c.toNat = 13 ∨
      c.toNat = 11 ∨ c.toNat = 12 := by
  unfold isSpaceChar at h
  simp only [Bool.or_eq_true, decide_eq_true_eq] at h
  tauto

theorem not_space_of_ge_33 {c : Char} (h : 33 ≤ c.toNat) : isSpaceChar c = false := by
  rw [Bool.eq_false_iff]
  intro hs
  rcases isSpaceChar_toNat hs with h' | h' | h' | h' | h' | h' <;> omega

theorem isEmailLocalChar_ge_33 {c : Char} (h : isEmailLocalChar c = true) :
    33 ≤ c.toNat := by
  unfold isEmailLocalChar isAlphaChar isDigitChar at h
  simp only [Bool.or_eq_true, Bool.and_eq_true, decide_eq_true_eq, beq_iff_eq] at h
  have h2 : (65 ≤ c.toNat ∧ c.toNat ≤ 90) ∨ (97 ≤ c.toNat ∧ c.toNat ≤ 122) ∨
      (48 ≤ c.toNat ∧ c.toNat ≤ 57) ∨ c = '.' ∨ c = '_' ∨ c = '%' ∨
      c = '+' ∨ c = '-' := by tauto
  rcases h2 with h' | h' | h' | h' | h' | h' | h' | h'
  · omega
  · omega
  · omega
  all_goals (subst h'; decide)

theorem isEmailDomainChar_ge_33 {c : Char} (h : isEmailDomainChar c = true) :
    33 ≤ c.toNat := by
  unfold isEmailDomainChar isAlphaChar isDigitChar at h
  simp only [Bool.or_eq_true, Bool.and_eq_true, decide_eq_true_eq, beq_iff_eq] at h
  have h2 : (65 ≤ c.toNat ∧ c.toNat ≤ 90) ∨ (97 ≤ c.toNat ∧ c.toNat ≤ 122) ∨
      (48 ≤ c.toNat ∧ c.toNat ≤ 57) ∨ c = '.' ∨ c = '-' := by tauto
  rcases h2 with h' | h' | h' | h' | h'
  · omega
  · omega
  · omega
  all_goals (subst h'; decide)

theorem isPhoneKeptChar_ge_33 {c : Char} (h : isPhoneKeptChar c = true) :
    33 ≤ c.toNat := by
  unfold isPhoneKeptChar isDigitChar at h
  simp only [Bool.or_eq_true, Bool.and_eq_true, decide_eq_true_eq, beq_iff_eq] at h
  have h2 : (48 ≤ c.toNat ∧ c.toNat ≤ 57) ∨ c = '+' := by tauto
  rcases h2 with h' | h'
  · omega
  · subst h'; decide

theorem map_fix {α : Type} (f : α → α) (l : List α) (h : ∀ a ∈ l, f a = a) :
    l.map f = l := by
  induction l with
  | nil => rfl
  | cons a as ih =>
    rw [List.map_cons, h a (by simp), ih (fun b hb => h b (by simp [hb]))]

theorem pyStripL_of_not_space {cs : List Char}
    (h : ∀ c ∈ cs, isSpaceChar c = false) : pyStripL cs = cs :=
  pyStripL_of_edges (fun c hc => h c (List.mem_of_mem_head? hc))
    (fun c hc => h c (List.mem_of_mem_getLast? hc))

theorem emailMatches_ne_nil {s : String} (h : emailMatches s = true) :
    s.data ≠ [] := by
  unfold emailMatches at h
  rcases hb : breakAt '@' s.data with _ | ⟨loc, dom⟩
  · rw [hb] at h; simp at h
  · obtain ⟨hsplit, _⟩ := breakAt_eq_some hb
    intro h0
    rw [h0] at hsplit
    simp at hsplit

theorem emailMatches_chars {s : String} (h : emailMatches s = true) :
    ∀ c ∈ s.data, 33 ≤ c.toNat := by
  unfold emailMatches at h
  rcases hb : breakAt '@' s.data with _ | ⟨loc, dom⟩
  · rw [hb] at h; simp at h
  · rw [hb] at h
    have h2 : (!loc.isEmpty && loc.all isEmailLocalChar &&
        match breakAt '.' dom.reverse with
        | some (tldRev, preRev) =>
          !preRev.isEmpty && dom.all isEmailDomainChar && decide (2 ≤ tldRev.length) &&
            tldRev.all isAlphaChar
        | none => false) = true := h
    rcases hd : breakAt '.' dom.reverse with _ | ⟨tldRev, preRev⟩
    · rw [hd] at h2; simp at h2
    · rw [hd] at h2
      simp only [Bool.and_eq_true] at h2
      obtain ⟨⟨_, hloc⟩, ⟨⟨_, hdom⟩, _⟩, _⟩ := h2
      simp only [List.all_eq_true] at hloc hdom
      obtain ⟨hsplit, _⟩ := breakAt_eq_some hb
      intro c hc
      rw [hsplit] at hc
      rcases List.mem_append.mp hc with hcl | hcd
      · exact isEmailLocalChar_ge_33 (hloc c hcl)
      · rcases List.mem_cons.mp hcd with rfl | hcd2
        · decide
        · exact isEmailDomainChar_ge_33 (hdom c hcd2)

/-- Scan for a doubled dot: true exactly when the string contains no two
adjacent dots, the configurations on which one replace pass is the
identity. -/
def noDoubledDot : List Char → Bool
  | '.' :: '.' :: _ => false
  | _ :: rest => noDoubledDot rest
  | [] => true

theorem mem_pyDedot {c0 : Char} : ∀ {cs : List Char}, c0 ∈ pyDedot cs → c0 ∈ cs := by
  intro cs
  induction cs using pyDedot.induct with
  | case1 rest ih =>
    intro h
    rw [pyDedot.eq_1] at h
    rcases List.mem_cons.mp h with rfl | h2
    · simp
    · simp [ih h2]
  | case2 c rest hside ih =>
    intro h
    rw [pyDedot.eq_2 c rest hside] at h
    rcases List.mem_cons.mp h with rfl | h2
    · simp
    · simp [ih h2]
  | case3 => intro h; exact h

theorem pyDedot_fix : ∀ {cs : List Char}, noDoubledDot cs = true → pyDedot cs = cs := by
  intro cs
  induction cs using pyDedot.induct with
  | case1 rest ih =>
    intro h
    rw [show noDoubledDot ('.' :: '.' :: rest) = false from rfl] at h
    cases h
  | case2 c rest hside ih =>
    intro h
    rw [noDoubledDot.eq_2 c rest hside] at h
    rw [pyDedot.eq_2 c rest hside, ih h]
  | case3 => intro _; rfl

theorem cleanEmail_lower_fixed (s : String) :
    ∀ c ∈ (cleanEmail s).data, pyLowerChar c = c := by
  intro c hc
  unfold cleanEmail pyDedotStr pyRemoveSpaces pyLower at hc
  have h1 := mem_pyDedot hc
  have h2 := List.mem_of_mem_filter h1
  obtain ⟨d, _, rfl⟩ := List.mem_map.mp h2
  exact pyLowerChar_pyLowerChar d

theorem cleanEmail_fix {e : String} (hm : emailMatches e = true)
    (hlow : ∀ c ∈ e.data, pyLowerChar c = c) :
    cleanEmail e = pyDedotStr e := by
  have h33 := emailMatches_chars hm
  have hns : ∀ c ∈ e.data, isSpaceChar c = false :=
    fun c hc => not_space_of_ge_33 (h33 c hc)
  have hstrip : pyStrip e = e := by
    show (⟨pyStripL e.data⟩ : String) = e
    rw [pyStripL_of_not_space hns]
  have hlower : pyLower e = e := by
    show (⟨e.data.map pyLowerChar⟩ : String) = e
    rw [map_fix _ _ hlow]
  have hrs : pyRemoveSpaces e = e := by
    show (⟨e.data.filter (fun c => c != ' ')⟩ : String) = e
    rw [List.filter_eq_self.mpr]
    intro c hc
    rw [bne_iff_ne]
    intro h0
    rw [h0] at hc
    exact absurd (hns ' ' hc) (by decide)
  unfold cleanEmail
  rw [hstrip, hlower, hrs]

theorem normalize_email_some {v : Cell} {e : String} {err : Option String}
    (h : normalize_email v = (some e, err)) :
    emailMatches e = true ∧ e = cleanEmail v.pyStr := by
  unfold normalize_email at h
  by_cases hg : (v.isna || (pyStrip v.pyStr).data.isEmpty) = true
  · rw [if_pos hg] at h
    simp at h
  · rw [if_neg hg] at h
    simp only [] at h
    by_cases hm : emailMatches (cleanEmail v.pyStr) = true
    · rw [if_pos hm] at h
      have h1 : some (cleanEmail v.pyStr) = some e := congrArg Prod.fst h
      have h2 := Option.some.inj h1
      exact ⟨h2 ▸ hm, h2.symm⟩
    · rw [if_neg hm] at h
      simp at h

theorem normalize_email_fix {e : String} (hm : emailMatches e = true)
    (hlow : ∀ c ∈ e.data, pyLowerChar c = c) (hnd : noDoubledDot e.data = true) :
    normalize_email (.str e) = (some e, none) := by
  have h33 := emailMatches_chars hm
  have hns : ∀ c ∈ e.data, isSpaceChar c = false :=
    fun c hc => not_space_of_ge_33 (h33 c hc)
  have hne : e.data ≠ [] := emailMatches_ne_nil hm
  have hstr : pyStrip e = e := by
    show (⟨pyStripL e.data⟩ : String) = e
    rw [pyStripL_of_not_space hns]
  have hclean : cleanEmail e = e := by
    rw [cleanEmail_fix hm hlow]
    show (⟨pyDedot e.data⟩ : String) = e
    rw [pyDedot_fix hnd]
  unfold normalize_email
  rw [show Cell.pyStr (.str e) = e from rfl]
  rw [if_neg (by simp [Cell.isna, hstr, List.isEmpty_iff, hne])]
  simp only []
  rw [if_pos (by rw [hclean]; exact hm), hclean]

theorem normalize_phone_some {v : Cell} {p : String} (h : normalize_phone v = some p) :
    (∀ c ∈ p.data, isPhoneKeptChar c = true) ∧ 7 ≤ p.data.length := by
  unfold normalize_phone at h
  by_cases hg : (v.isna || (pyStrip v.pyStr).data.isEmpty) = true
  · rw [if_pos hg] at h
    simp at h
  · rw [if_neg hg] at h
    simp only [] at h
    by_cases hlen : ((pyStrip v.pyStr).data.filter isPhoneKeptChar).length < 7
    · rw [if_pos hlen] at h
      simp at h
    · rw [if_neg hlen] at h
      split at h
      · have hp := (Option.some.inj h).symm
        subst hp
        constructor
        · intro c hc
          rcases List.mem_cons.mp hc with rfl | hc2
          · decide
          · exact List.of_mem_filter hc2
        · show 7 ≤ ('+' :: (pyStrip v.pyStr).data.filter isPhoneKeptChar).length
          rw [List.length_cons]
          omega
      · have hp := (Option.some.inj h).symm
        subst hp
        constructor
        · intro c hc
          exact List.of_mem_filter hc
        · show 7 ≤ ((pyStrip v.pyStr).data.filter isPhoneKeptChar).length
          omega

theorem normalize_phone_of_kept {p : String}
    (hall : ∀ c ∈ p.data, isPhoneKeptChar c = true) (hlen : 7 ≤ p.data.length) :
    normalize_phone (.str p) = some p := by
  have hns : ∀ c ∈ p.data, isSpaceChar c = false :=
    fun c hc => not_space_of_ge_33 (isPhoneKeptChar_ge_33 (hall c hc))
  have hne : p.data ≠ [] := by
    intro h0
    rw [h0] at hlen
    simp at hlen
  have hstr : pyStrip p = p := by
    show (⟨pyStripL p.data⟩ : String) = p
    rw [pyStripL_of_not_space hns]
  have hpy : Cell.pyStr (.str p) = p := rfl
  have h := normalize_phone_eq_filter (.str p)
    (by simp [Cell.isna, hpy, hstr, List.isEmpty_iff, hne])
    (by rw [hpy, hstr, List.filter_eq_self.mpr hall]; omega)
  rw [h, hpy, hstr, List.filter_eq_self.mpr hall]

theorem normalize_phone_fix {v : Cell} {p : String} (h : normalize_phone v = some p) :
    normalize_phone (.str p) = some p := by
  obtain ⟨h1, h2⟩ := normalize_phone_some h
  exact normalize_phone_of_kept h1 h2

theorem normalize_text_some {v : Cell} {t : String} (h : normalize_text v = some t) :
    t = pyStrip v.pyStr ∧ t.data ≠ [] := by
  unfold normalize_text at h
  by_cases hg : (v.isna || (pyStrip v.pyStr).data.isEmpty) = true
  · rw [if_pos hg] at h
    simp at h
  · rw [if_neg hg] at h
    have ht := (Option.some.inj h).symm
    refine ⟨ht, ?_⟩
    intro h0
    apply hg
    rw [ht] at h0
    simp [h0, List.isEmpty_iff]

theorem normalize_text_fix {v : Cell} {t : String} (h : normalize_text v = some t) :
    normalize_text (.str t) = some t := by
  obtain ⟨ht, hne⟩ := normalize_text_some h
  have hstr : pyStrip t = t := by
    rw [ht]
    show (⟨pyStripL (pyStripL v.pyStr.data)⟩ : String) = _
    rw [pyStripL_pyStripL]
    rfl
  unfold normalize_text
  rw [show Cell.pyStr (.str t) = t from rfl]
  rw [if_neg (by simp [Cell.isna, hstr, List.isEmpty_iff, hne]), hstr]

theorem normalize_source_enum (ls : LeadSource) :
    normalize_source (.source ls) = .other := by
  cases ls <;> decide

theorem pyStrip_head_char {s : String} (h : (pyStrip s).data ≠ []) :
    ∃ c, c ∈ (pyStrip s).data ∧ isSpaceChar c = false := by
  rcases hh : (pyStrip s).data.head? with _ | c
  · rw [List.head?_eq_none_iff] at hh
    exact absurd hh h
  · exact ⟨c, List.mem_of_mem_head? hh, pyStripL_head_not_space hh⟩

theorem pyCollapseWs_ne_nil_of_mem {s : String} {c : Char} (hc : c ∈ s.data)
    (hns : isSpaceChar c = false) : (pyCollapseWs s).data ≠ [] := by
  have hd : (pyCollapseWs s).data = joinSep [' '] (pyWords s.data) := by
    show joinSep [' '] (pyWordsC s.data) = _
    rw [pyWordsC_eq]
  rw [hd]
  rcases hw : pyWords s.data with _ | ⟨w, ws⟩
  · have hall := (pyWords_nil_iff s.data).mp hw c hc
    rw [hns] at hall
    cases hall
  · exact joinSep_ne_nil w ws (pyWords_sound s.data w (by rw [hw]; simp)).1

theorem strJoin_head_mem {c : Char} {p : String} (sep : String) (ps : List String)
    (hc : c ∈ p.data) : c ∈ (strJoin sep (p :: ps)).data := by
  rcases ps with _ | ⟨q, qs⟩
  · exact hc
  · show c ∈ (p ++ sep ++ strJoin sep (q :: qs)).data
    have hdata : (p ++ sep ++ strJoin sep (q :: qs)).data =
        p.data ++ sep.data ++ (strJoin sep (q :: qs)).data := rfl
    rw [hdata]
    simp [hc]

theorem titled_collapse_fix (u : String) (hne : (pyCollapseWs u).data ≠ []) :
    normalize_name (.str (pyTitle (pyCollapseWs u))) = some (pyTitle (pyCollapseWs u)) := by
  have hcol : Collapsed (pyCollapseWs u).data := collapsed_pyCollapseWs u
  have hct : Collapsed (pyTitle (pyCollapseWs u)).data := hcol.title
  have hlen : (pyTitle (pyCollapseWs u)).data ≠ [] := by
    intro h0
    have hl := pyTitleAux_length false (pyCollapseWs u).data
    rw [show (pyTitle (pyCollapseWs u)).data = pyTitleAux false (pyCollapseWs u).data
      from rfl] at h0
    rw [h0] at hl
    exact hne (List.eq_nil_of_length_eq_zero hl.symm)
  have hstr : pyStrip (pyTitle (pyCollapseWs u)) = pyTitle (pyCollapseWs u) := by
    show (⟨pyStripL (pyTitle (pyCollapseWs u)).data⟩ : String) = _
    rw [hct.strip_fix]
  unfold normalize_name
  rw [show Cell.pyStr (.str (pyTitle (pyCollapseWs u))) = pyTitle (pyCollapseWs u) from rfl]
  rw [if_neg (by simp [Cell.isna, hstr, List.isEmpty_iff, hlen])]
  rw [hstr, hct.collapse_fix]
  show some (⟨pyTitleAux false (pyTitleAux false (pyCollapseWs u).data)⟩ : String) = _
  rw [pyTitleAux_pyTitleAux]
  rfl

theorem normalize_name_some {v : Cell} {t : String} (h : normalize_name v = some t) :
    normalize_name (.str t) = some t := by
  unfold normalize_name at h
  by_cases hg : (v.isna || (pyStrip v.pyStr).data.isEmpty) = true
  · rw [if_pos hg] at h
    cases h
  · rw [if_neg hg] at h
    have ht := (Option.some.inj h).symm
    have hgne : (pyStrip v.pyStr).data ≠ [] := by
      intro h0
      exact hg (by simp [h0])
    obtain ⟨c, hcm, hcs⟩ := pyStrip_head_char hgne
    rw [ht]
    exact titled_collapse_fix _ (pyCollapseWs_ne_nil_of_mem hcm hcs)

theorem merge_names_some {f ln : Cell} {t : String} (h : merge_names f ln = some t) :
    normalize_name (.str t) = some t := by
  unfold merge_names at h
  simp only [] at h
  by_cases hc1 : (!f.isna && !(pyStrip f.pyStr).data.isEmpty) = true
  · rw [if_pos hc1] at h
    simp only [List.singleton_append, List.isEmpty_cons, Bool.false_eq_true, if_false] at h
    have ht := (Option.some.inj h).symm
    have hfe : (pyStrip f.pyStr).data ≠ [] := by
      simp only [Bool.and_eq_true, Bool.not_eq_true'] at hc1
      intro h0
      rw [h0] at hc1
      simp at hc1
    obtain ⟨c, hcm, hcs⟩ := pyStrip_head_char hfe
    rw [ht]
    exact titled_collapse_fix _ (pyCollapseWs_ne_nil_of_mem (strJoin_head_mem _ _ hcm) hcs)
  · rw [if_neg hc1] at h
    simp only [List.nil_append] at h
    by_cases hc2 : (!ln.isna && !(pyStrip ln.pyStr).data.isEmpty) = true
    · rw [if_pos hc2] at h
      simp only [List.isEmpty_cons, Bool.false_eq_true, if_false] at h
      have ht := (Option.some.inj h).symm
      have hle : (pyStrip ln.pyStr).data ≠ [] := by
        simp only [Bool.and_eq_true, Bool.not_eq_true'] at hc2
        intro h0
        rw [h0] at hc2
        simp at hc2
      obtain ⟨c, hcm, hcs⟩ := pyStrip_head_char hle
      rw [ht]
      exact titled_collapse_fix _ (pyCollapseWs_ne_nil_of_mem (strJoin_head_mem _ _ hcm) hcs)
    · rw [if_neg hc2] at h
      simp at h

theorem fullNameVal_fix {M : Dict Cell} {t : String}
    (h : fullNameValOf M = some (some t)) : normalize_name (.str t) = some t := by
  unfold fullNameValOf at h
  by_cases h1 : dMem M "full_name" = true
  · rw [if_pos h1] at h
    exact normalize_name_some (Option.some.inj h)
  · rw [if_neg h1] at h
    by_cases h2 : (dMem M "first_name" || dMem M "last_name") = true
    · rw [if_pos h2] at h
      exact merge_names_some (Option.some.inj h)
    · rw [if_neg h2] at h
      cases h

theorem fullNameValOf_build (M : Dict Cell) :
    fullNameValOf (build_normalized M).1 =
      (fullNameValOf M).map (fun v => normalize_name (optCell v)) := by
  have hm2 : dMem (build_normalized M).1 "first_name" = false := by
    rw [dMem_eq_isSome, dGet_build_first_name]
    rfl
  have hm3 : dMem (build_normalized M).1 "last_name" = false := by
    rw [dMem_eq_isSome, dGet_build_last_name]
    rfl
  rcases hfv : fullNameValOf M with _ | v
  · have h1 : dGet (build_normalized M).1 "full_name" = none := by
      rw [dGet_build_full_name, hfv]
      rfl
    have hm1 : dMem (build_normalized M).1 "full_name" = false := by
      rw [dMem_eq_isSome, h1]
      rfl
    unfold fullNameValOf
    rw [hm1, hm2, hm3]
    simp
  · have h1 : dGet (build_normalized M).1 "full_name" = some (optCell v) := by
      rw [dGet_build_full_name, hfv]
      rfl
    have hm1 : dMem (build_normalized M).1 "full_name" = true := by
      rw [dMem_eq_isSome, h1]
      rfl
    unfold fullNameValOf
    rw [hm1, h1]
    simp

theorem emailResOf_some {M : Dict Cell} {r : Option String × Option String}
    (h : emailResOf M = some r) :
    r = normalize_email ((dGet M "email").getD .pynone) := by
  unfold emailResOf at h
  by_cases hm : dMem M "email" = true
  · rw [if_pos hm] at h
    exact (Option.some.inj h).symm
  · rw [if_neg hm] at h
    cases h

theorem round_trip_fields (M : Dict Cell) :
    dGet (build_normalized (build_normalized M).1).1 "full_name"
        = dGet (build_normalized M).1 "full_name" ∧
    dGet (build_normalized (build_normalized M).1).1 "phone"
        = dGet (build_normalized M).1 "phone" ∧
    dGet (build_normalized (build_normalized M).1).1 "company"
        = dGet (build_normalized M).1 "company" ∧
    dGet (build_normalized (build_normalized M).1).1 "notes"
        = dGet (build_normalized M).1 "notes" ∧
    (∀ e : String, dGet (build_normalized M).1 "email" = some (.str e) →
      noDoubledDot e.data = true →
      dGet (build_normalized (build_normalized M).1).1 "email" = some (.str e)) ∧
    (dGet (build_normalized M).1 "email" = none →
      dGet (build_normalized (build_normalized M).1).1 "email" = none) ∧
    dGet (build_normalized (build_normalized M).1).1 "source" = some (.source .other) := by
  refine ⟨?hfull, ?hphone, ?hcompany, ?hnotes, ?hemail1, ?hemail2, ?hsource⟩
  case hfull =>
    rw [dGet_build_full_name, dGet_build_full_name, fullNameValOf_build]
    rcases hfv : fullNameValOf M with _ | v
    · rfl
    · rcases v with _ | t
      · rfl
      · have hfix := fullNameVal_fix hfv
        simp [optCell, hfix]
  case hphone =>
    have hA := dGet_build_phone M
    by_cases hp : dMem M "phone" = true
    · rw [hp, if_pos rfl] at hA
      have hm : dMem (build_normalized M).1 "phone" = true := by
        rw [dMem_eq_isSome, hA]
        rfl
      rw [dGet_build_phone, hm, if_pos rfl, hA]
      simp only [Option.getD_some]
      rcases hr : normalize_phone ((dGet M "phone").getD .pynone) with _ | p
      · rfl
      · simp [optCell, normalize_phone_fix hr]
    · have hp' : dMem M "phone" = false := Bool.eq_false_iff.mpr hp
      rw [hp'] at hA
      simp only [Bool.false_eq_true, if_false] at hA
      have hm : dMem (build_normalized M).1 "phone" = false := by
        rw [dMem_eq_isSome, hA]
        rfl
      rw [dGet_build_phone, hm, hA]
      simp
  case hcompany =>
    have hA := dGet_build_company M
    by_cases hp : dMem M "company" = true
    · rw [hp, if_pos rfl] at hA
      have hm : dMem (build_normalized M).1 "company" = true := by
        rw [dMem_eq_isSome, hA]
        rfl
      rw [dGet_build_company, hm, if_pos rfl, hA]
      simp only [Option.getD_some]
      rcases hr : normalize_text ((dGet M "company").getD .pynone) with _ | t
      · rfl
      · simp [optCell, normalize_text_fix hr]
    · have hp' : dMem M "company" = false := Bool.eq_false_iff.mpr hp
      rw [hp'] at hA
      simp only [Bool.false_eq_true, if_false] at hA
      have hm : dMem (build_normalized M).1 "company" = false := by
        rw [dMem_eq_isSome, hA]
        rfl
      rw [dGet_build_company, hm, hA]
      simp
  case hnotes =>
    have hA := dGet_build_notes M
    by_cases hp : dMem M "notes" = true
    · rw [hp, if_pos rfl] at hA
      have hm : dMem (build_normalized M).1 "notes" = true := by
        rw [dMem_eq_isSome, hA]
        rfl
      rw [dGet_build_notes, hm, if_pos rfl, hA]
      simp only [Option.getD_some]
      rcases hr : normalize_text ((dGet M "notes").getD .pynone) with _ | t
      · rfl
      · simp [optCell, normalize_text_fix hr]
    · have hp' : dMem M "notes" = false := Bool.eq_false_iff.mpr hp
      rw [hp'] at hA
      simp only [Bool.false_eq_true, if_false] at hA
      have hm : dMem (build_normalized M).1 "notes" = false := by
        rw [dMem_eq_isSome, hA]
        rfl
      rw [dGet_build_notes, hm, hA]
      simp
  case hemail1 =>
    intro e h1 hnd
    have hA := dGet_build_email M
    rw [h1] at hA
    rcases hem : emailResOf M with _ | ⟨oe, err⟩
    · rw [hem] at hA
      have h' : some (Cell.str e) = (none : Option Cell) := hA
      cases h'
    · rcases oe with _ | e2
      · rw [hem] at hA
        have h' : some (Cell.str e) = (none : Option Cell) := hA
        cases h'
      · rw [hem] at hA
        have h' : some (Cell.str e) =
            (if !e2.data.isEmpty then some (Cell.str e2) else none) := hA
        by_cases hc : e2.data.isEmpty = true
        · rw [hc] at h'
          simp at h'
        · have hc' : e2.data.isEmpty = false := Bool.eq_false_iff.mpr hc
          rw [hc'] at h'
          simp only [Bool.not_false, if_true] at h'
          have hcc := Option.some.inj h'
          have hee : e = e2 := by injection hcc
          rw [← hee] at hem
          have hr := emailResOf_some hem
          obtain ⟨hm', hce⟩ := normalize_email_some hr.symm
          have hlow : ∀ c ∈ e.data, pyLowerChar c = c := by
            rw [hce]
            exact cleanEmail_lower_fixed _
          have hfix := normalize_email_fix hm' hlow hnd
          have hmem1 : dMem (build_normalized M).1 "email" = true := by
            rw [dMem_eq_isSome, h1]
            rfl
          have hres : emailResOf (build_normalized M).1 = some (some e, none) := by
            unfold emailResOf
            rw [hmem1, if_pos rfl, h1]
            simp only [Option.getD_some]
            rw [hfix]
          rw [dGet_build_email, hres]
          show (if !e.data.isEmpty then some (Cell.str e) else none) = some (Cell.str e)
          have hne := emailMatches_ne_nil hm'
          rw [if_pos (by simp [List.isEmpty_iff, hne])]
  case hemail2 =>
    intro h1
    have hmem1 : dMem (build_normalized M).1 "email" = false := by
      rw [dMem_eq_isSome, h1]
      rfl
    have hres : emailResOf (build_normalized M).1 = none := by
      unfold emailResOf
      rw [hmem1]
      simp
    rw [dGet_build_email, hres]
  case hsource =>
    have hA := dGet_build_source M
    have hm : dMem (build_normalized M).1 "source" = true := by
      rw [dMem_eq_isSome, hA]
      rfl
    rw [dGet_build_source, hm, if_pos rfl, hA]
    simp only [Option.getD_some]
    rw [normalize_source_enum]

/-- Counterexample row for the C6 round-trip claim: the email cell holds a
triple dot, which one replace pass shortens to a doubled dot that still
passes the email regex, so a second normalization shortens it again. -/
def ce6_row : Dict Cell := [("email", .str "a...b@x.com"), ("name", .str "Jo")]

/-- Column mapping of the C6 counterexample row. -/
def ce6_mappings : Dict String := [("email", "email"), ("name", "full_name")]

/-- C6 counterexample: normalizing a row and re-normalizing its output under
the identity mapping does not preserve the stored email field, because the
doubled-dot replace is a single pass and its output can still contain a
doubled dot that validates against the email regex. -/
theorem normalize_round_trip_counterexample :
    dGet (normalize_row (normalize_row ce6_row ce6_mappings []).1
        identity_mapping []).1 "email"
      ≠ dGet (normalize_row ce6_row ce6_mappings []).1 "email" := by
  decide

/-- C6 (corrected): re-normalizing the output of normalize_row under the
identity mapping preserves the canonical full_name, phone, company and notes
values; it preserves a stored email exactly in the absence of a doubled dot
(and absence of a stored email is preserved); but the stored source always
collapses to Other, because str() of a LeadSource member renders as
LeadSource.MEMBER, which matches no source value or alias.  The original
claim that every canonical field value is preserved is refuted by
normalize_round_trip_counterexample (a doubled dot surviving the single
replace pass changes the email on the second pass) and by the source
collapse. -/
theorem normalize_round_trip_amended (row : Dict Cell) (mappings : Dict String)
    (merge_rules : List MergeRule) :
    dGet (normalize_row (normalize_row row mappings merge_rules).1 identity_mapping []).1
        "full_name" = dGet (normalize_row row mappings merge_rules).1 "full_name" ∧
    dGet (normalize_row (normalize_row row mappings merge_rules).1 identity_mapping []).1
        "phone" = dGet (normalize_row row mappings merge_rules).1 "phone" ∧
    dGet (normalize_row (normalize_row row mappings merge_rules).1 identity_mapping []).1
        "company" = dGet (normalize_row row mappings merge_rules).1 "company" ∧
    dGet (normalize_row (normalize_row row mappings merge_rules).1 identity_mapping []).1
        "notes" = dGet (normalize_row row mappings merge_rules).1 "notes" ∧
    (∀ e : String,
      dGet (normalize_row row mappings merge_rules).1 "email" = some (.str e) →
      noDoubledDot e.data = true →
      dGet (normalize_row (normalize_row row mappings merge_rules).1 identity_mapping []).1
        "email" = some (.str e)) ∧
    (dGet (normalize_row row mappings merge_rules).1 "email" = none →
      dGet (normalize_row (normalize_row row mappings merge_rules).1 identity_mapping []).1
        "email" = none) ∧
    dGet (normalize_row (normalize_row row mappings merge_rules).1 identity_mapping []).1
        "source" = some (.source .other) := by
  have h2 : (normalize_row (normalize_row row mappings merge_rules).1 identity_mapping []).1
      = (build_normalized (build_normalized (mapped_row_of row mappings merge_rules)).1).1 := by
    show (build_normalized (map_columns
      (build_normalized (mapped_row_of row mappings merge_rules)).1 identity_mapping)).1 = _
    rw [map_columns_build_id]
  rw [h2]
  exact round_trip_fields (mapped_row_of row mappings merge_rules)

/-- Row for the amended round-trip witness: a well-formed email with no
doubled dot. -/
def ce6w_row : Dict Cell := [("email", .str " Jo@X.com "), ("name", .str "Jo")]

/-- Column mapping of the witness row. -/
def ce6w_mappings : Dict String := [("email", "email"), ("name", "full_name")]

/-- Witness for the amended C6 theorem: its email clause applies to a
concrete normalized row, both hypotheses holding by evaluation, so the
round trip keeps the stored email. -/
theorem normalize_round_trip_amended_witness :
    dGet (normalize_row (normalize_row ce6w_row ce6w_mappings []).1 identity_mapping []).1
        "email" = some (.str "jo@x.com") :=
  (normalize_round_trip_amended ce6w_row ce6w_mappings []).2.2.2.2.1 "jo@x.com"
    (by decide) (by decide)
